import Mathlib

/-!
Verification of the card-creatr configuration resolver (options.js) and
page-layout engine (page.js / svg.js) against their specification.

The development shallowly embeds the JavaScript source:
* raw configuration values become the inductive `RawValue`;
* the ambient JS/Node primitives (filesystem reads, `path.join`,
  `mime.lookup`, base64 encoding, `image-size`, `word-wrappr`, the bundled
  `placeholder.png` bytes, and the numeric builtins `parseInt`/`parseFloat`)
  are collected in a `Prims` record that parametrises every definition;
* fallible code returns `Except String`;
* the recursive tree walk `consumeSync`/`consume` takes an explicit fuel
  argument (its first `Nat` argument).  The JS recursion always terminates
  because sources are acyclic nested mappings; any fuel at least the nesting
  depth yields the same result, so theorems quantify over, or instantiate, a
  sufficient fuel.
-/

namespace CardCreatr

/-- Byte buffers (Node `Buffer`) are modelled as lists of naturals. -/
abbrev Bytes := List Nat

/-- A JavaScript number as produced by `parseInt`/`parseFloat`: either NaN or
an actual (rational) value.  JS floats are modelled as rationals. -/
inductive JSNum where
  | nan
  | val (q : ℚ)
deriving DecidableEq

/-- Raw configuration values as they appear in a source mapping before
resolution: strings, numbers, booleans, arrays and nested mappings.  A nested
mapping is an ordered list of key/value pairs (JS objects iterate keys in
insertion order).  `null`/`undefined` values are not modelled. -/
inductive RawValue where
  | str (s : String)
  | num (n : JSNum)
  | bool (b : Bool)
  | arr (elems : List RawValue)
  | obj (entries : List (String × RawValue))

/-- Association-list lookup, modelling JS property read `m[k]`
(`none` = `undefined`). -/
def getKey {α : Type} : List (String × α) → String → Option α
  | [], _ => none
  | (k, v) :: rest, n => if k = n then some v else getKey rest n

/-- Association-list update, modelling JS property write `m[k] = v`
(overwrites in place, appends otherwise, preserving insertion order). -/
def setKey {α : Type} : List (String × α) → String → α → List (String × α)
  | [], n, v => [(n, v)]
  | (k, w) :: rest, n, v =>
      if k = n then (k, v) :: rest else (k, w) :: setKey rest n v

/-- Worker for `dedupFirst`: keep elements not seen before. -/
def dedupFirstGo : List String → List String → List String
  | [], _ => []
  | x :: xs, seen =>
      if seen.contains x then dedupFirstGo xs seen
      else x :: dedupFirstGo xs (x :: seen)

/-- First-occurrence deduplication: implements the idiom
`self.indexOf(x) === index` used by `getAllFieldNames`. -/
def dedupFirst (l : List String) : List String := dedupFirstGo l []

/-- `String.prototype.split(sep)` for a one-character separator, as a
structural recursion over the character list (`acc` holds the current
segment reversed). -/
def splitCharGo (sep : Char) : List Char → List Char → List String
  | [], acc => [String.mk acc.reverse]
  | c :: rest, acc =>
      if c = sep then String.mk acc.reverse :: splitCharGo sep rest []
      else splitCharGo sep rest (c :: acc)

/-- `s.split(sep)` for a one-character separator. -/
def splitChar (sep : Char) (s : String) : List String :=
  splitCharGo sep s.data []

/-- A character matched by the JS regex class `\w`. -/
def wordChar (c : Char) : Bool :=
  ('a' ≤ c && c ≤ 'z') || ('A' ≤ c && c ≤ 'Z') || ('0' ≤ c && c ≤ '9') || c = '_'

/-- Scan for the first match of the regex `\(([\w,]+)\)` (PROPERTIES_REGEX)
and return the captured group.  Since `[\w,]` excludes `)`, the greedy run
after a `(` must be maximal and immediately followed by `)`. -/
def propsScan : List Char → Option (List Char)
  | [] => none
  | c :: rest =>
      if c = '(' then
        let run := rest.takeWhile (fun d => wordChar d || d = ',')
        if 0 < run.length && (rest.drop run.length).head? = some ')' then
          some run
        else propsScan rest
      else propsScan rest

/-- Test of the regex `\[\]$` (utils.ARRAY_REGEX): key ends with `[]`. -/
def endsWithBrackets (cs : List Char) : Bool :=
  match cs.reverse with
  | ']' :: '[' :: _ => true
  | _ => false

/-- A parsed field key: `parseFieldKey`'s result without the value. -/
structure FieldKey where
  name : String
  properties : List String
  array : Bool
deriving DecidableEq

/-- parseFieldKey (options.js): extract the leading `\w+` identifier, the
parenthesised comma-separated property group, and the `[]` array marker.
Properties are stored as a JS object of `true` flags, so repeated names
collapse: modelled by first-occurrence deduplication of the split. -/
def parseFieldKey (key : String) : Except String FieldKey :=
  let cs := key.data
  let name := cs.takeWhile wordChar
  if name.isEmpty then
    Except.error ("Cannot parse field with key '" ++ key ++ "'")
  else
    let properties :=
      match propsScan cs with
      | none => []
      | some run => dedupFirst (splitCharGo ',' run [])
    Except.ok { name := String.mk name, properties := properties,
                array := endsWithBrackets cs }

/-- Whether a raw key is a private `_`-prefixed key (JS `key[0] === "_"`). -/
def underscored (k : String) : Bool := k.data.head? = some '_'

/-- A resolution context: the `dirname` tagged onto each source.  Either an
asset base directory (string) or a custom byte-reading function (used for
ZIP-bundle-backed sources).  The reader returns `.ok none` when the JS
function returns `null`, `.error e` when it reports an error. -/
inductive Dirname where
  | dir (d : String)
  | fn (reader : String → Except String (Option Bytes))

/-- One raw configuration source: an ordered key/value mapping plus its
resolution context.  The JS code stores the context inside the mapping under
the private key `_dirname`; the model keeps it as a separate component. -/
structure Src where
  entries : List (String × RawValue)
  dirname : Dirname

/-- A field as produced by `convertKeysToFields`: parsed key plus raw value. -/
structure Field where
  name : String
  properties : List String
  array : Bool
  value : RawValue

/-- A converted source: `convertKeysToFields`'s output, keyed by field name. -/
structure CSrc where
  fields : List (String × Field)
  dirname : Dirname

/-- convertKeysToFields (options.js): parse every non-private key of a source
and key the result by field name; a second key producing an already present
field name is a fatal duplicate.  Private `_`-prefixed keys are layering
metadata passed through verbatim in JS; `_dirname` is modelled by
`Src.dirname` and other private keys are inert for resolution, so the model
skips them. -/
def convertKeysToFields (source : Src) : Except String CSrc := do
  let fields ← source.entries.foldlM (fun dest kv => do
      if underscored kv.1 then
        pure dest
      else do
        let field ← parseFieldKey kv.1
        match getKey dest field.name with
        | some _ =>
            Except.error
              ("Duplicate entry in same source for field '" ++ field.name ++ "'")
        | none =>
            pure (dest ++ [(field.name,
              { name := field.name, properties := field.properties,
                array := field.array, value := kv.2 })])
    ) []
  pure { fields := fields, dirname := source.dirname }

/-- getAllFieldNames (options.js): all field names of all converted sources,
first occurrence kept, private `_`-prefixed names skipped. -/
def getAllFieldNames (sources : List CSrc) : List String :=
  dedupFirst
    (((sources.map (fun s => s.fields.map Prod.fst)).flatten).filter
      (fun n => !(underscored n)))

/-- isConsumable (options.js): a field whose value is a nested mapping (not
an array, not `null`) is recursed into; everything else is terminal. -/
def isConsumable (field : Field) : Bool :=
  match field.value with
  | RawValue.obj _ => true
  | _ => false

/-- The ambient JavaScript/Node primitives that options.js calls out to.
Every resolver definition is parametrised by one `Prims` value. -/
structure Prims where
  /-- `fs.readFileSync`/`fs.readFile`: `.error` models a thrown/reported
  read error (e.g. ENOENT).  The filesystem read never returns `null`. -/
  fsys : String → Except String Bytes
  /-- `path.join`. -/
  pathJoin : String → String → String
  /-- `mime.lookup` (result of `false` for unknown types is modelled as an
  ordinary string since it is only ever interpolated into the data URI). -/
  mimeLookup : String → String
  /-- `Buffer.prototype.toString("base64")`. -/
  base64 : Bytes → String
  /-- `image-size`: pixel dimensions, `none` models a decoding throw. -/
  imgSize : Bytes → Option (Nat × Nat)
  /-- `new WordWrappr(buffer)` + `loadSync`: the shaping handle is modelled
  by the bytes it was built from; `none` models a font-parse throw. -/
  fontLoad : Bytes → Option Bytes
  /-- The bundled `placeholder.png` bytes (PLACEHOLDER_PNG). -/
  placeholder : Bytes
  /-- JS builtin `parseInt` applied to the raw value (coercion included). -/
  parseIntJS : RawValue → JSNum
  /-- JS builtin `parseFloat` applied to the raw value (coercion included). -/
  parseFloatJS : RawValue → JSNum

/-- A resolved file-backed leaf value: the `result` object built by
`processFieldSync`/`processField`.  Absent JS properties are `none`. -/
structure Asset where
  dirname : Option Dirname
  path : Option String
  mimeType : Option String
  buffer : Option Bytes
  dataUri : Option String
  dims : Option (Nat × Nat)
  wrappr : Option Bytes

/-- The fully empty `result = {}` object (field with only unrecognised
properties). -/
def assetEmpty : Asset :=
  { dirname := none, path := none, mimeType := none, buffer := none,
    dataUri := none, dims := none, wrappr := none }

/-- A resolved terminal value stored in the merged tree. -/
inductive Leaf where
  | raw (v : RawValue)
  | num (n : JSNum)
  | asset (a : Asset)

/-- The merged configuration tree: nested mappings with resolved leaves. -/
inductive Tree where
  | leaf (l : Leaf)
  | node (m : List (String × Tree))

/-- Coercion of a raw value to a file path string.  Node throws when a
non-string reaches `path.join`; the custom-reader branch is modelled with the
same coercion. -/
def asString : RawValue → Except String String
  | RawValue.str s => Except.ok s
  | _ => Except.error "TypeError: file path is not a string"

/-- Interpolation `${x}` of a possibly-undefined string. -/
def jsShow (o : Option String) : String := o.getD "undefined"

/-- processFieldSync (options.js): interpret one terminal field.  No
properties: pass the raw value through.  `uint`/`number`: JS numeric parse,
stored without any validation.  Otherwise build the asset object: resolve the
path against the context, read the bytes (substituting PLACEHOLDER_PNG when
the read fails and `img` is declared), compute the data URI, then image
dimensions (`img`) and the font handle (`font`).  The `oldValue` parameter
exists in the source but is unused. -/
def processFieldSync (prims : Prims) (field : Field) (oldValue : Option Tree)
    (dirname : Dirname) : Except String Leaf :=
  let newValue := field.value
  if field.properties.length = 0 then
    Except.ok (Leaf.raw newValue)
  else if field.properties.contains "uint" then
    Except.ok (Leaf.num (prims.parseIntJS newValue))
  else if field.properties.contains "number" then
    Except.ok (Leaf.num (prims.parseFloatJS newValue))
  else
    let props := field.properties
    let shouldLoadBuffer :=
      props.contains "path" || props.contains "img" || props.contains "font"
    if shouldLoadBuffer then do
      let pathStr ← match dirname with
        | Dirname.fn _ => asString newValue
        | Dirname.dir d => (asString newValue).map (fun v => prims.pathJoin d v)
      let mimeType0 := prims.mimeLookup pathStr
      let attempt : Except String (Option Bytes) :=
        match dirname with
        | Dirname.fn reader => reader pathStr
        | Dirname.dir _ => (prims.fsys pathStr).map (fun b => some b)
      let bm ← match attempt with
        | Except.error e =>
            -- read threw: caught, and the placeholder substituted, only for img
            if props.contains "img" then
              Except.ok (prims.placeholder, prims.mimeLookup "placeholder.png")
            else Except.error e
        | Except.ok none =>
            -- custom loader returned null
            if props.contains "img" then
              Except.ok (prims.placeholder, prims.mimeLookup "placeholder.png")
            else
              Except.error ("Could not load file: " ++ pathStr ++
                ": file loader function returned null")
        | Except.ok (some b) => Except.ok (b, mimeType0)
      let buffer := bm.1
      let mimeType := bm.2
      let dataUri := "data:" ++ mimeType ++ ";base64," ++ prims.base64 buffer
      let dims ← if props.contains "img" then
          match prims.imgSize buffer with
          | some d => Except.ok (some d)
          | none => Except.error ("unsupported file type: " ++ pathStr)
        else Except.ok none
      let wrappr ← if props.contains "font" then
          match prims.fontLoad buffer with
          | some w => Except.ok (some w)
          | none => Except.error ("Font could not be parsed: " ++ pathStr)
        else Except.ok none
      Except.ok (Leaf.asset
        { dirname := some dirname, path := some pathStr,
          mimeType := some mimeType, buffer := some buffer,
          dataUri := some dataUri, dims := dims, wrappr := wrappr })
    else
      Except.ok (Leaf.asset assetEmpty)

/-- The buffer slot of `results.bufferInit` in the async path: JS
distinguishes `undefined` (read reported an error) from `null` (loader
returned null / read skipped). -/
inductive JSBuf where
  | undef
  | nullv
  | bytes (b : Bytes)

/-- processField (options.js): the concurrent counterpart of
`processFieldSync`, sequentialised (the `async.auto` step graph
`bufferInit → buffer → path/img/font` is deterministic once reads are pure).
It faithfully keeps the async-only quirk: the `buffer` step overwrites the
pending error whenever the buffer slot is exactly `null` — in particular a
field with only unrecognised properties skips the read, leaves a `null`
buffer, and therefore fails, whereas the sync path returns `{}`. -/
def processField (prims : Prims) (field : Field) (oldValue : Option Tree)
    (dirname : Dirname) : Except String Leaf :=
  let newValue := field.value
  if field.properties.length = 0 then
    Except.ok (Leaf.raw newValue)
  else if field.properties.contains "uint" then
    Except.ok (Leaf.num (prims.parseIntJS newValue))
  else if field.properties.contains "number" then
    Except.ok (Leaf.num (prims.parseFloatJS newValue))
  else do
    let props := field.properties
    let shouldLoadBuffer :=
      props.contains "path" || props.contains "img" || props.contains "font"
    -- bufferInit task: (result.path, result.mimeType, reported error, buffer)
    let init : Option String × Option String × Option String × JSBuf ←
      if shouldLoadBuffer then
        match dirname with
        | Dirname.fn reader => do
            let p ← asString newValue
            match reader p with
            | Except.error e =>
                pure (some p, some (prims.mimeLookup p), some e, JSBuf.undef)
            | Except.ok none =>
                pure (some p, some (prims.mimeLookup p), none, JSBuf.nullv)
            | Except.ok (some b) =>
                pure (some p, some (prims.mimeLookup p), none, JSBuf.bytes b)
        | Dirname.dir d => do
            let v ← asString newValue
            let p := prims.pathJoin d v
            match prims.fsys p with
            | Except.error e =>
                pure (some p, some (prims.mimeLookup p), some e, JSBuf.undef)
            | Except.ok b =>
                pure (some p, some (prims.mimeLookup p), none, JSBuf.bytes b)
      else
        pure (none, none, none, JSBuf.nullv)
    let pathOpt := init.1
    let mimeOpt := init.2.1
    let initErr := init.2.2.1
    let initBuf := init.2.2.2
    -- buffer task: `if (buffer === null) err = ...` then placeholder fallback
    let err1 : Option String :=
      match initBuf with
      | JSBuf.nullv =>
          some ("Could not load file: " ++ jsShow pathOpt ++
            ": file loader function returned null")
      | _ => initErr
    let bm ← match err1 with
      | none =>
          match initBuf with
          | JSBuf.bytes b => Except.ok (b, jsShow mimeOpt)
          | _ => Except.error "unreachable: no error but no buffer"
      | some e =>
          if props.contains "img" then
            Except.ok (prims.placeholder, prims.mimeLookup "placeholder.png")
          else Except.error e
    let buffer := bm.1
    let mimeType := bm.2
    -- path task
    let dataUri := "data:" ++ mimeType ++ ";base64," ++ prims.base64 buffer
    -- img task
    let dims ← if props.contains "img" then
        match prims.imgSize buffer with
        | some d => Except.ok (some d)
        | none => Except.error ("unsupported file type: " ++ jsShow pathOpt)
      else Except.ok none
    -- font task
    let wrappr ← if props.contains "font" then
        match prims.fontLoad buffer with
        | some w => Except.ok (some w)
        | none => Except.error ("Font could not be parsed: " ++ jsShow pathOpt)
      else Except.ok none
    Except.ok (Leaf.asset
      { dirname := some dirname, path := pathOpt,
        mimeType := some mimeType, buffer := some buffer,
        dataUri := some dataUri, dims := dims, wrappr := wrappr })

/-- One iteration of the field loop of consumeSync (options.js): gather the
defining sources, check nesting consistency, then either recurse on the
nested mappings (contexts copied down, as the JS `_dirname` mutation does) or
resolve the terminal value from the first — highest-priority — defining
source.  `recurse` is the recursive call at one less fuel. -/
def consumeStepSync (prims : Prims)
    (recurse : List (String × Tree) → String → List Src →
      Except String (List (String × Tree)))
    (cs : List CSrc) (previousFieldName : String)
    (dest : List (String × Tree)) (fieldName : String) :
    Except String (List (String × Tree)) :=
  match cs.filterMap (fun s =>
    (getKey s.fields fieldName).map (fun fld => (fld, s.dirname))) with
  | [] =>
      -- unreachable: fieldName always comes from getAllFieldNames cs
      Except.error ("TypeError: no source defines field '" ++ fieldName ++ "'")
  | (fld0, dn0) :: rest =>
    if ((fld0, dn0) :: rest).all (fun p => isConsumable p.1 = isConsumable fld0)
    then
      if isConsumable fld0 then do
        let sub ← recurse
          (match getKey dest fieldName with
            | some (Tree.node m) => m
            | _ => [])
          (previousFieldName ++ "/" ++ fieldName)
          (((fld0, dn0) :: rest).filterMap (fun p =>
            match p.1.value with
            | RawValue.obj es => some (Src.mk es p.2)   -- context copied down
            | _ => none))   -- unreachable once the consistency check passed
        pure (setKey dest fieldName (Tree.node sub))
      else do
        let leaf ← processFieldSync prims fld0 (getKey dest fieldName) dn0
        pure (setKey dest fieldName (Tree.leaf leaf))
    else
      Except.error
        ("Inconsistent nesting for field with name '" ++
          (previousFieldName ++ "/" ++ fieldName) ++ "'")

/-- consumeSync (options.js): convert every source's keys, take the union of
field names in first-seen order, and run the field loop.  The `Nat` argument
is recursion fuel (the JS recursion terminates because sources are acyclic;
the entry point supplies a bound large enough that fuel never runs out). -/
def consumeSync (prims : Prims) :
    Nat → List (String × Tree) → String → List Src →
    Except String (List (String × Tree))
  | 0, _, _, _ => Except.error "consumeSync: recursion fuel exhausted"
  | Nat.succ fuel, dest, previousFieldName, rawSources => do
      let sources ← rawSources.mapM convertKeysToFields
      let allFieldNames := getAllFieldNames sources
      allFieldNames.foldlM
        (consumeStepSync prims (fun d p s => consumeSync prims fuel d p s)
          sources previousFieldName)
        dest

/-- One iteration of the `async.each` body of consume (options.js); the merge
logic is that of `consumeStepSync` with the async leaf resolver
`processField`.  The `onLoadedCallback` notifications fired here in JS do not
affect the merged tree and are omitted. -/
def consumeStepAsync (prims : Prims)
    (recurse : List (String × Tree) → String → List Src →
      Except String (List (String × Tree)))
    (cs : List CSrc) (previousFieldName : String)
    (dest : List (String × Tree)) (fieldName : String) :
    Except String (List (String × Tree)) :=
  match cs.filterMap (fun s =>
    (getKey s.fields fieldName).map (fun fld => (fld, s.dirname))) with
  | [] =>
      Except.error ("TypeError: no source defines field '" ++ fieldName ++ "'")
  | (fld0, dn0) :: rest =>
    if ((fld0, dn0) :: rest).all (fun p => isConsumable p.1 = isConsumable fld0)
    then
      if isConsumable fld0 then do
        let sub ← recurse
          (match getKey dest fieldName with
            | some (Tree.node m) => m
            | _ => [])
          (previousFieldName ++ "/" ++ fieldName)
          (((fld0, dn0) :: rest).filterMap (fun p =>
            match p.1.value with
            | RawValue.obj es => some (Src.mk es p.2)
            | _ => none))
        pure (setKey dest fieldName (Tree.node sub))
      else do
        let leaf ← processField prims fld0 (getKey dest fieldName) dn0
        pure (setKey dest fieldName (Tree.leaf leaf))
    else
      Except.error
        ("Inconsistent nesting for field with name '" ++
          (previousFieldName ++ "/" ++ fieldName) ++ "'")

/-- consume (options.js): the concurrent tree walk, sequentialised.  With
reads modelled as pure lookups every `async.each` iteratee completes
deterministically, so the fan-out is embedded as a left fold in field order;
the first error wins, and on success the destination tree is identical to
the one the concurrent schedule produces (each sibling writes only its own
slot). -/
def consume (prims : Prims) :
    Nat → List (String × Tree) → String → List Src →
    Except String (List (String × Tree))
  | 0, _, _, _ => Except.error "consumeSync: recursion fuel exhausted"
  | Nat.succ fuel, dest, previousFieldName, rawSources => do
      let sources ← rawSources.mapM convertKeysToFields
      let allFieldNames := getAllFieldNames sources
      allFieldNames.foldlM
        (consumeStepAsync prims (fun d p s => consume prims fuel d p s)
          sources previousFieldName)
        dest

/-- The `Options` class (options.js): the source layering.  `_data` is
produced by loading and is returned by `loadSync`/`load` directly here. -/
structure Options where
  overrides : List Src
  sources : List Src

/-- `new Options()`. -/
def Options.new : Options := { overrides := [], sources := [] }

/-- Options.addOverride: pushed to the end of the override list. -/
def Options.addOverride (o : Options) (source : List (String × RawValue))
    (dirname : Dirname) : Options :=
  { o with overrides := o.overrides ++ [Src.mk source dirname] }

/-- Options.addPrimary: unshifted to the front of the source list (LIFO). -/
def Options.addPrimary (o : Options) (source : List (String × RawValue))
    (dirname : Dirname) : Options :=
  { o with sources := Src.mk source dirname :: o.sources }

/-- Options.addFallback: pushed to the back of the source list (FIFO). -/
def Options.addFallback (o : Options) (source : List (String × RawValue))
    (dirname : Dirname) : Options :=
  { o with sources := o.sources ++ [Src.mk source dirname] }

/-- Options.loadSync: resolve `[].concat(overrides, sources)` into the data
tree with the blocking walk.  `fuel` is the explicit recursion budget of the
embedding: the JS recursion always terminates because sources are acyclic
nested mappings, and every fuel at least the nesting depth gives the same
result, so theorems quantify over or instantiate a sufficient fuel. -/
def Options.loadSync (prims : Prims) (fuel : Nat) (o : Options) :
    Except String (List (String × Tree)) :=
  consumeSync prims fuel [] "" (o.overrides ++ o.sources)

/-- Options.load: resolve the same layering with the concurrent walk (the
`onceLoaded` listener drain does not touch the tree and is omitted).  `fuel`
as in `Options.loadSync`. -/
def Options.load (prims : Prims) (fuel : Nat) (o : Options) :
    Except String (List (String × Tree)) :=
  consume prims fuel [] "" (o.overrides ++ o.sources)

/-- JS truthiness of a number. -/
def numTruthy : JSNum → Bool
  | JSNum.nan => false
  | JSNum.val q => decide (q ≠ 0)

/-- JS truthiness of a raw value (objects and arrays are always truthy). -/
def rawTruthy : RawValue → Bool
  | RawValue.str s => decide (s ≠ "")
  | RawValue.num n => numTruthy n
  | RawValue.bool b => b
  | RawValue.arr _ => true
  | RawValue.obj _ => true

/-- JS truthiness of a resolved leaf (asset objects are always truthy). -/
def leafTruthy : Leaf → Bool
  | Leaf.raw v => rawTruthy v
  | Leaf.num n => numTruthy n
  | Leaf.asset _ => true

/-- JS truthiness of the running `result` of Options.get
(`undefined` is falsy, tree nodes are objects and truthy). -/
def jsTruthy : Option Tree → Bool
  | none => false
  | some (Tree.node _) => true
  | some (Tree.leaf l) => leafTruthy l

/-- One property read `result[fieldNames[i]]` during Options.get.  Reading a
named property off a resolved leaf yields `undefined` (reads into the fields
of an asset record object are outside the model). -/
def indexTree : Option Tree → String → Option Tree
  | some (Tree.node m), n => getKey m n
  | some (Tree.leaf _), _ => none
  | none, _ => none

/-- The loop of Options.get: per segment, first throw if the running result
is falsy, then index. -/
def getRun : Option Tree → List String → String → Except String (Option Tree)
  | result, [], _ => Except.ok result
  | result, n :: rest, fullFieldName =>
      if jsTruthy result then getRun (indexTree result n) rest fullFieldName
      else Except.error ("Cannot find field: " ++ fullFieldName)

/-- Options.get: split the absolute slash-delimited path, drop the leading
empty segment, and walk the data tree. -/
def Options.get (data : List (String × Tree)) (fullFieldName : String) :
    Except String (Option Tree) :=
  let fieldNames := (splitChar '/' fullFieldName).drop 1
  getRun (some (Tree.node data)) fieldNames fullFieldName

/-- Pure descent along path segments (no truthiness checks): used to state
properties of Options.get. -/
def descend (t : Option Tree) (segs : List String) : Option Tree :=
  segs.foldl indexTree t

/-- All intermediate results along a descent are truthy. -/
def truthyAlong : Option Tree → List String → Bool
  | _, [] => true
  | t, n :: rest => jsTruthy t && truthyAlong (indexTree t n) rest

namespace libOptions

/-!
The earlier revision of the resolver, file src/lib/options.js: its
`parseFieldKey` tests the unanchored regex `/\[\]/` and its
`convertKeysToFields` accumulates repeated array-marked keys instead of
rejecting them.  Only the key-conversion layer differs from the later
revision; it is embedded here for the duplicate/array-field claims.
-/

/-- Test of the unanchored regex `/\[\]/` (local ARRAY_REGEX of
src/lib/options.js): key contains `[]` anywhere. -/
def containsBrackets : List Char → Bool
  | [] => false
  | '[' :: ']' :: _ => true
  | _ :: rest => containsBrackets rest

/-- parseFieldKey (src/lib/options.js): same name/properties grammar, array
flag from the unanchored `[]` test. -/
def parseFieldKey (key : String) : Except String FieldKey :=
  let cs := key.data
  let name := cs.takeWhile wordChar
  if name.isEmpty then
    Except.error ("Cannot parse field with key '" ++ key ++ "'")
  else
    let properties :=
      match propsScan cs with
      | none => []
      | some run => dedupFirst (splitCharGo ',' run [])
    Except.ok { name := String.mk name, properties := properties,
                array := containsBrackets cs }

/-- convertKeysToFields (src/lib/options.js): like the later revision, but a
key whose parsed descriptor is array-marked appends its value to the field's
accumulated array (created on first occurrence, properties taken from the
first key); a non-array key whose field name already exists is a fatal
duplicate, and an array key colliding with an existing non-array value is a
conflicting-array-types error. -/
def convertKeysToFields (source : Src) : Except String CSrc := do
  let fields ← source.entries.foldlM (fun dest kv => do
      if underscored kv.1 then
        pure dest
      else do
        let field ← parseFieldKey kv.1
        if field.array then
          match getKey dest field.name with
          | none =>
              pure (dest ++ [(field.name,
                { name := field.name, properties := field.properties,
                  array := field.array, value := RawValue.arr [kv.2] })])
          | some existing =>
              match existing.value with
              | RawValue.arr vs =>
                  pure (setKey dest field.name
                    { existing with value := RawValue.arr (vs ++ [kv.2]) })
              | _ =>
                  Except.error
                    ("Conflicting array types in same source for field '" ++
                      field.name ++ "'")
        else
          match getKey dest field.name with
          | some _ =>
              Except.error
                ("Duplicate entry in same source for field '" ++
                  field.name ++ "'")
          | none =>
              pure (dest ++ [(field.name,
                { name := field.name, properties := field.properties,
                  array := field.array, value := kv.2 })])
    ) []
  pure { fields := fields, dirname := source.dirname }

end libOptions

/-- `Math.trunc`: round a rational toward zero. -/
def jsTrunc (q : ℚ) : ℤ := if q < 0 then -⌊-q⌋ else ⌊q⌋

/-- The page viewport consumed by the PageRenderer constructor. -/
structure Viewport where
  width : ℚ
  height : ℚ
  cardWidth : ℚ
  cardHeight : ℚ
  printMargin : ℚ
deriving DecidableEq

/-- One grid cell: sheet-relative top-left offset, plus the horizontally
mirrored offset `xr` used for reversed (double-sided) rendering. -/
structure Placeholder where
  x : ℚ
  y : ℚ
  xr : ℚ
deriving DecidableEq

/-- The PageRenderer (page.js): viewport, reversal flag, grid capacity and
the precomputed placeholder grid. -/
structure PageRenderer where
  viewport : Viewport
  reversed : Bool
  capacity : ℤ
  placeholders : List Placeholder
deriving DecidableEq

/-- The fixed filler card `_DEFAULT_CARD` substituted for missing items
(the xmlbuilder-generated grey rectangle). -/
def DEFAULT_CARD : String :=
  "<rect x=\"0\" y=\"0\" width=\"1\" height=\"1\" fill=\"#D9D9D9\"/>"

/-- PageRenderer constructor (page.js): compute the printable area, the
horizontal/vertical capacities via `Math.trunc`, fail when the product is 0,
and precompute the placeholder grid under the requested strategy
("evenSpacing" spreads equal gaps; anything else is the tight default).
The loops run `vCap`/`hCap` times, i.e. not at all when a capacity is
negative (`Int.toNat` clamps at zero like a JS `for` with a negative bound). -/
def PageRenderer.make (viewport : Viewport) (strategy : String)
    (reversed : Bool) : Except String PageRenderer :=
  let pageWidth := viewport.width - 2 * viewport.printMargin
  let pageHeight := viewport.height - 2 * viewport.printMargin
  let cardWidth := viewport.cardWidth
  let cardHeight := viewport.cardHeight
  let hCap := jsTrunc (pageWidth / cardWidth)
  let vCap := jsTrunc (pageHeight / cardHeight)
  let capacity := hCap * vCap
  if capacity = 0 then
    Except.error "Cannot fit any cards onto the page."
  else
    let placeholders :=
      if strategy = "evenSpacing" then
        let hSpc := (pageWidth - hCap * cardWidth) / (hCap + 1)
        let vSpc := (pageHeight - vCap * cardHeight) / (vCap + 1)
        ((List.range vCap.toNat).map (fun i =>
          let y := vSpc + (vSpc + cardHeight) * (i : ℚ) + viewport.printMargin
          (List.range hCap.toNat).map (fun jx =>
            let j : ℤ := jx
            let jr : ℤ := hCap - jx - 1
            Placeholder.mk
              (hSpc + (hSpc + cardWidth) * j + viewport.printMargin)
              y
              (hSpc + (hSpc + cardWidth) * jr + viewport.printMargin)))).flatten
      else
        let hMar := (pageWidth - hCap * cardWidth) / 2
        let vMar := (pageHeight - vCap * cardHeight) / 2
        ((List.range vCap.toNat).map (fun i =>
          let y := vMar + cardHeight * (i : ℚ) + viewport.printMargin
          (List.range hCap.toNat).map (fun jx =>
            let j : ℤ := jx
            let jr : ℤ := hCap - jx - 1
            Placeholder.mk
              (hMar + cardWidth * j + viewport.printMargin)
              y
              (hMar + cardWidth * jr + viewport.printMargin)))).flatten
    Except.ok (PageRenderer.mk viewport reversed capacity placeholders)

/-- One card placed on a page at a grid offset.  A rendered page is modelled
as structured placements instead of the serialized XML string; the
serializer (xmlbuilder) is an external collaborator. -/
structure Placed where
  x : ℚ
  y : ℚ
  content : String
deriving DecidableEq

/-- One rendered page: the `y` attribute given to the page element and the
cards placed on the placeholder grid. -/
structure Page where
  yCoord : ℚ
  placed : List Placed
deriving DecidableEq

/-- `cards[i] || DEFAULT_CARD`: a missing or empty (falsy) entry renders as
the fixed filler card. -/
def cardOrDefault (o : Option String) : String :=
  match o with
  | some s => if s = "" then DEFAULT_CARD else s
  | none => DEFAULT_CARD

/-- _renderOne (page.js): assert the chunk fits, then place one card (or the
default filler) on every placeholder; `reversed` swaps in the mirrored `xr`
offsets. -/
def renderOne (r : PageRenderer) (cards : List String) (yCoord : ℚ)
    (reversed : Bool) : Except String Page :=
  if (cards.length : ℤ) ≤ r.capacity then
    Except.ok
      { yCoord := yCoord,
        placed := r.placeholders.enum.map (fun p =>
          Placed.mk
            (if reversed then p.2.xr else p.2.x)
            p.2.y
            (cardOrDefault (cards.get? p.1))) }
  else
    Except.error "AssertionError: cards.length <= this._capacity"

/-- Worker for `chunksOf`, structurally recursive on a fuel that starts at
the list length (the list shrinks by at least one element per chunk, so the
zero-fuel branch is unreachable). -/
def chunksGo {α : Type} (cap : Nat) : Nat → List α → List (List α)
  | _, [] => []
  | 0, _ :: _ => []
  | Nat.succ fuel, x :: xs =>
      (x :: xs.take (cap - 1)) :: chunksGo cap fuel (xs.drop (cap - 1))

/-- Consecutive chunks `cards.slice(i, i + cap)` for `i = 0, cap, 2*cap, …`;
total for every `cap` (the JS loop does not terminate when `cap ≤ 0`, a case
the renderers below reject explicitly). -/
def chunksOf {α : Type} (cap : Nat) (l : List α) : List (List α) :=
  chunksGo cap l.length l

/-- PageRenderer.render (page.js): one discrete page per chunk of `capacity`
cards, each at `y = 0`; with `cardBacks` supplied, a mirrored back page from
the same index range follows each front page. -/
def PageRenderer.render (r : PageRenderer) (cards : List String)
    (cardBacks : Option (List String)) : Except String (List Page) :=
  if r.capacity ≤ 0 then
    Except.error "render: nonpositive capacity does not terminate"
  else
    let cap := r.capacity.toNat
    (chunksOf cap cards).enum.foldlM (fun pages c => do
      let front ← renderOne r c.2 0 r.reversed
      match cardBacks with
      | none => pure (pages ++ [front])
      | some bs => do
          let back ← renderOne r ((bs.drop (c.1 * cap)).take cap) 0 (!r.reversed)
          pure (pages ++ [front, back])) []

/-- The result of renderConcatenated: the concatenated output is modelled as
the ordered list of pages (string concatenation of the serialized pages is
external), plus the page count. -/
structure ConcatOut where
  pages : List Page
  numPages : Nat
deriving DecidableEq

/-- PageRenderer.renderConcatenated (page.js): like `render`, but each page's
`y` attribute is the running page number, and the count is returned. -/
def PageRenderer.renderConcatenated (r : PageRenderer) (cards : List String)
    (cardBacks : Option (List String)) : Except String ConcatOut :=
  if r.capacity ≤ 0 then
    Except.error "render: nonpositive capacity does not terminate"
  else
    let cap := r.capacity.toNat
    (chunksOf cap cards).enum.foldlM (fun out c => do
      let front ← renderOne r c.2 (out.numPages : ℚ) r.reversed
      match cardBacks with
      | none => pure (ConcatOut.mk (out.pages ++ [front]) (out.numPages + 1))
      | some bs => do
          let back ← renderOne r ((bs.drop (c.1 * cap)).take cap)
            ((out.numPages : ℚ) + 1) (!r.reversed)
          pure (ConcatOut.mk (out.pages ++ [front, back]) (out.numPages + 2)))
      (ConcatOut.mk [] 0)

/-- Property sets that dispatch identically in `processFieldSync` and
`processField`: empty, numeric, or containing at least one asset property.
A nonempty set with none of these five names hits the async-only
null-buffer error branch. -/
def goodProps (props : List String) : Bool :=
  props.isEmpty || props.contains "uint" || props.contains "number" ||
    props.contains "path" || props.contains "img" || props.contains "font"

/-- Every field of the mapping (recursively) that is not a nested mapping has
a `goodProps` property set (private `_` keys and unparsable keys exempt:
the former are skipped, the latter abort both walks identically). -/
def goodEntries : List (String × RawValue) → Bool
  | [] => true
  | (k, v) :: rest =>
      (if underscored k then true
       else match v with
         | RawValue.obj es => goodEntries es
         | _ =>
             match parseFieldKey k with
             | Except.ok fd => goodProps fd.properties
             | Except.error _ => true) && goodEntries rest
termination_by l => sizeOf l
decreasing_by
  · simp only [List.cons.sizeOf_spec, Prod.mk.sizeOf_spec, RawValue.obj.sizeOf_spec]
    omega
  · simp only [List.cons.sizeOf_spec]
    omega

/-- The per-entry conjunct of `goodEntries`. -/
def goodHead (k : String) (v : RawValue) : Bool :=
  if underscored k then true
  else match v with
    | RawValue.obj es => goodEntries es
    | _ =>
        match parseFieldKey k with
        | Except.ok fd => goodProps fd.properties
        | Except.error _ => true

/-- Every source of the layering satisfies `goodEntries`. -/
def goodSrcs (l : List Src) : Bool := l.all (fun s => goodEntries s.entries)

/-- A converted field whose content is recognisable: a nested-mapping value
is recursively good, a terminal value carries a `goodProps` property set. -/
def goodField (fld : Field) : Bool :=
  match fld.value with
  | RawValue.obj es => goodEntries es
  | _ => goodProps fld.properties

/-- Every field of a converted source is `goodField`. -/
def goodCSrc (s : CSrc) : Bool := s.fields.all (fun p => goodField p.2)

/-- The first — highest-priority — converted source defining a field name,
together with its resolution context: the `_sources[0]` of the consume
field loop. -/
def firstDefining : List CSrc → String → Option (Field × Dirname)
  | [], _ => none
  | s :: rest, name =>
      match getKey s.fields name with
      | some fld => some (fld, s.dirname)
      | none => firstDefining rest name

/-- The page a successful `renderOne` produces (its pure content). -/
def pageOf (r : PageRenderer) (cards : List String) (yCoord : ℚ)
    (reversed : Bool) : Page :=
  { yCoord := yCoord,
    placed := r.placeholders.enum.map (fun p =>
      Placed.mk
        (if reversed then p.2.xr else p.2.x)
        p.2.y
        (cardOrDefault (cards.get? p.1))) }

/-- A concrete primitives instance used by witnesses and counterexamples: a
filesystem on which every read succeeds with an empty buffer. -/
def okPrims : Prims :=
  { fsys := fun _ => Except.ok [],
    pathJoin := fun d v => d ++ "/" ++ v,
    mimeLookup := fun p => "mime:" ++ p,
    base64 := fun b => toString b.length,
    imgSize := fun b => some (b.length, b.length),
    fontLoad := fun b => some b,
    placeholder := [9, 9, 9],
    parseIntJS := fun v =>
      match v with
      | RawValue.str "12" => JSNum.val 12
      | _ => JSNum.nan,
    parseFloatJS := fun _ => JSNum.nan }

/-- A concrete primitives instance on which every filesystem read fails. -/
def enoentPrims : Prims :=
  { okPrims with fsys := fun p => Except.error ("ENOENT: " ++ p) }

/-- A concrete primitives instance modelling the runtime around an
`img`+`font` field with a missing file: every filesystem read fails, and the
font parser rejects whatever bytes it is given — in particular the
placeholder's PNG bytes, which `WordWrappr` cannot parse as a font. -/
def pngFontPrims : Prims :=
  { okPrims with
      fsys := fun p => Except.error ("ENOENT: " ++ p),
      fontLoad := fun _ => none }

/-- A layering built through the Options API: each override added with
`addOverride`, each primary with `addPrimary` and each fallback with
`addFallback`, in list order. -/
def mkOptions (ovs prims fbs : List Src) : Options :=
  ((ovs.foldl (fun o s => o.addOverride s.entries s.dirname) Options.new
    |> fun o1 => prims.foldl (fun o s => o.addPrimary s.entries s.dirname) o1)
    |> fun o2 => fbs.foldl (fun o s => o.addFallback s.entries s.dirname) o2)

/-- The horizontal capacity the PageRenderer constructor computes:
`Math.trunc((width - 2*printMargin) / cardWidth)`. -/
def PageRenderer.hCap (vp : Viewport) : ℤ :=
  jsTrunc ((vp.width - 2 * vp.printMargin) / vp.cardWidth)

/-- The vertical capacity the PageRenderer constructor computes:
`Math.trunc((height - 2*printMargin) / cardHeight)`. -/
def PageRenderer.vCap (vp : Viewport) : ℤ :=
  jsTrunc ((vp.height - 2 * vp.printMargin) / vp.cardHeight)

/-- The pages renderConcatenated produces from consecutive chunks, the
running page number used as each page's `y` attribute. -/
def concatPages (r : PageRenderer) (reversed : Bool) :
    Nat → List (List String) → List Page
  | _, [] => []
  | n, c :: rest =>
      pageOf r c (n : ℚ) reversed :: concatPages r reversed (n + 1) rest

/-! ### General lemmas about the association-list and dedup helpers -/

theorem getKey_setKey_self {α : Type} (m : List (String × α)) (n : String)
    (v : α) : getKey (setKey m n v) n = some v := by
  induction m with
  | nil => simp [setKey, getKey]
  | cons kv rest ih =>
      by_cases h : kv.1 = n
      · simp [setKey, getKey, h]
      · simpa [setKey, getKey, h] using ih

theorem getKey_setKey_ne {α : Type} (m : List (String × α)) (n k : String)
    (v : α) (hk : k ≠ n) : getKey (setKey m n v) k = getKey m k := by
  induction m with
  | nil => simp [setKey, getKey, Ne.symm hk]
  | cons kv rest ih =>
      by_cases h : kv.1 = n
      · by_cases h2 : kv.1 = k
        · exact absurd (h2.symm.trans h) hk
        · simp [setKey, getKey, h, h2, Ne.symm hk]
      · by_cases h2 : kv.1 = k
        · simp [setKey, getKey, h, h2, hk]
        · simp only [setKey, if_neg h, getKey, if_neg h2]
          exact ih

theorem getKey_mem {α : Type} {m : List (String × α)} {n : String} {v : α}
    (h : getKey m n = some v) : (n, v) ∈ m := by
  induction m with
  | nil => simp [getKey] at h
  | cons kv rest ih =>
      obtain ⟨k1, v1⟩ := kv
      by_cases hk : k1 = n
      · simp only [getKey, hk, if_pos] at h
        rw [Option.some.injEq] at h
        subst hk
        subst h
        exact List.mem_cons_self _ _
      · simp only [getKey, hk, if_false, ite_false] at h
        exact List.mem_cons_of_mem _ (ih h)

theorem mem_dedupFirstGo {l : List String} {seen : List String} {x : String} :
    x ∈ dedupFirstGo l seen ↔ x ∈ l ∧ ¬ x ∈ seen := by
  induction l generalizing seen with
  | nil => simp [dedupFirstGo]
  | cons y ys ih =>
      by_cases h : seen.contains y
      · rw [dedupFirstGo, if_pos h]
        rw [ih]
        constructor
        · rintro ⟨hm, hs⟩
          exact ⟨List.mem_cons_of_mem _ hm, hs⟩
        · rintro ⟨hm, hs⟩
          rcases List.mem_cons.mp hm with rfl | hm
          · exact absurd (by simpa using h) hs
          · exact ⟨hm, hs⟩
      · rw [dedupFirstGo, if_neg h]
        constructor
        · intro hm
          rcases List.mem_cons.mp hm with rfl | hm
          · refine ⟨List.mem_cons_self _ _, ?_⟩
            intro hs
            exact h (by simpa using hs)
          · rcases ih.mp hm with ⟨h1, h2⟩
            refine ⟨List.mem_cons_of_mem _ h1, ?_⟩
            intro hs
            exact h2 (List.mem_cons_of_mem _ hs)
        · rintro ⟨hm, hs⟩
          rcases List.mem_cons.mp hm with rfl | hm
          · exact List.mem_cons_self _ _
          · by_cases hx : x = y
            · subst hx
              exact List.mem_cons_self _ _
            · exact List.mem_cons_of_mem _ (ih.mpr ⟨hm, by
                intro hseen
                rcases List.mem_cons.mp hseen with h1 | h1
                · exact hx h1
                · exact hs h1⟩)

theorem nodup_dedupFirstGo (l : List String) (seen : List String) :
    (dedupFirstGo l seen).Nodup := by
  induction l generalizing seen with
  | nil => simp [dedupFirstGo]
  | cons y ys ih =>
      by_cases h : seen.contains y
      · rw [dedupFirstGo, if_pos h]
        exact ih seen
      · rw [dedupFirstGo, if_neg h]
        refine List.Nodup.cons ?_ (ih (y :: seen))
        intro hmem
        exact (mem_dedupFirstGo.mp hmem).2 (List.mem_cons_self _ _)

theorem nodup_dedupFirst (l : List String) : (dedupFirst l).Nodup :=
  nodup_dedupFirstGo l []

theorem mem_dedupFirst {l : List String} {x : String} :
    x ∈ dedupFirst l ↔ x ∈ l := by
  rw [dedupFirst, mem_dedupFirstGo]
  simp

theorem exceptPure_eq_ok {ε α : Type} (a : α) :
    (pure a : Except ε α) = Except.ok a := rfl

theorem exceptBind_ok {ε α β : Type} (a : α) (f : α → Except ε β) :
    (Except.ok a : Except ε α) >>= f = f a := rfl

theorem exceptBind_error {ε α β : Type} (e : ε) (f : α → Except ε β) :
    (Except.error e : Except ε α) >>= f = Except.error e := rfl

/-! ### Claims about the leaf resolver (processFieldSync / processField) -/

/-- C9 (amended): a terminal field declaring `uint` resolves, in both the
blocking and the concurrent leaf resolver, to the unvalidated result of the
JS `parseInt` builtin — which may be NaN for malformed input or a negative
integer — and no numeric-parse error is ever raised. -/
theorem c9_uint_unvalidated (prims : Prims) (field : Field)
    (oldValue : Option Tree) (dirname : Dirname)
    (huint : field.properties.contains "uint" = true) :
    processFieldSync prims field oldValue dirname =
      Except.ok (Leaf.num (prims.parseIntJS field.value)) ∧
    processField prims field oldValue dirname =
      Except.ok (Leaf.num (prims.parseIntJS field.value)) := by
  have hne : ¬ field.properties.length = 0 := by
    intro h
    rw [List.length_eq_zero] at h
    rw [h] at huint
    simp [List.contains] at huint
  constructor
  · rw [processFieldSync, if_neg hne, if_pos huint]
  · rw [processField, if_neg hne, if_pos huint]

/-- Witness for C9: the uint-declared field with raw value "abc" (for which
`parseInt` yields NaN) resolves successfully to NaN in both resolvers. -/
theorem c9_uint_unvalidated_witness :
    (["uint"].contains "uint" = true) ∧
    (processFieldSync okPrims
        (Field.mk "count" ["uint"] false (RawValue.str "abc")) none
        (Dirname.dir "d") = Except.ok (Leaf.num JSNum.nan) ∧
     processField okPrims
        (Field.mk "count" ["uint"] false (RawValue.str "abc")) none
        (Dirname.dir "d") = Except.ok (Leaf.num JSNum.nan)) :=
  ⟨by decide,
   c9_uint_unvalidated okPrims
     (Field.mk "count" ["uint"] false (RawValue.str "abc")) none
     (Dirname.dir "d") (by decide)⟩

/-- Counterexample to C9 as stated: the raw value "abc" is not parsable as a
non-negative integer, yet resolution does not fail — it succeeds and stores
NaN. -/
theorem c9_counterexample :
    processFieldSync okPrims
        (Field.mk "count" ["uint"] false (RawValue.str "abc")) none
        (Dirname.dir "d") = Except.ok (Leaf.num JSNum.nan) ∧
    processField okPrims
        (Field.mk "count" ["uint"] false (RawValue.str "abc")) none
        (Dirname.dir "d") = Except.ok (Leaf.num JSNum.nan) := by
  constructor <;> rfl

/-- C4 (amended): for a terminal field declaring `img` but not `font` (nor a
numeric property), a failing filesystem read does not abort resolution: both
leaf resolvers succeed and the resulting asset carries the built-in
placeholder bytes, the placeholder's mime type and data URI, and dimensions
decoded from the placeholder bytes.  Without `img`, the same read failure is
fatal in both resolvers.  The `font` exclusion is necessary: when `font` is
also declared, the substituted placeholder bytes are handed to the font
parser, whose failure aborts resolution — see `c4_counterexample`. -/
theorem c4_img_placeholder (prims : Prims) (field : Field)
    (oldValue : Option Tree) (d v e : String) (dims : Nat × Nat)
    (hval : field.value = RawValue.str v)
    (hu : field.properties.contains "uint" = false)
    (hn : field.properties.contains "number" = false)
    (hrd : prims.fsys (prims.pathJoin d v) = Except.error e)
    (hdims : prims.imgSize prims.placeholder = some dims) :
    (field.properties.contains "img" = true →
     field.properties.contains "font" = false →
     processFieldSync prims field oldValue (Dirname.dir d) =
        Except.ok (Leaf.asset
          { dirname := some (Dirname.dir d),
            path := some (prims.pathJoin d v),
            mimeType := some (prims.mimeLookup "placeholder.png"),
            buffer := some prims.placeholder,
            dataUri := some ("data:" ++ prims.mimeLookup "placeholder.png" ++
              ";base64," ++ prims.base64 prims.placeholder),
            dims := some dims, wrappr := none }) ∧
     processField prims field oldValue (Dirname.dir d) =
        Except.ok (Leaf.asset
          { dirname := some (Dirname.dir d),
            path := some (prims.pathJoin d v),
            mimeType := some (prims.mimeLookup "placeholder.png"),
            buffer := some prims.placeholder,
            dataUri := some ("data:" ++ prims.mimeLookup "placeholder.png" ++
              ";base64," ++ prims.base64 prims.placeholder),
            dims := some dims, wrappr := none })) ∧
    (field.properties.contains "img" = false →
     (field.properties.contains "path" = true ∨
       field.properties.contains "font" = true) →
     processFieldSync prims field oldValue (Dirname.dir d) =
        Except.error e ∧
     processField prims field oldValue (Dirname.dir d) = Except.error e) := by
  have humem : "uint" ∉ field.properties := by simpa using hu
  have hnmem : "number" ∉ field.properties := by simpa using hn
  constructor
  · intro himg hfont
    have himem : "img" ∈ field.properties := by simpa using himg
    have hfmem : "font" ∉ field.properties := by simpa using hfont
    have hne : ¬ field.properties.length = 0 := by
      intro h
      rw [List.length_eq_zero] at h
      rw [h] at himem
      simp at himem
    constructor
    · rw [processFieldSync, if_neg hne, if_neg (by simp [humem]),
        if_neg (by simp [hnmem]), if_pos (by simp [himem])]
      rw [hval]
      simp [asString, hrd, himem, hfmem, hdims, Except.map, exceptBind_ok,
        exceptBind_error]
    · rw [processField, if_neg hne, if_neg (by simp [humem]),
        if_neg (by simp [hnmem])]
      rw [hval]
      simp [asString, hrd, himem, hfmem, hdims, jsShow, Except.map,
        exceptBind_ok, exceptBind_error]
  · intro himg hlb
    have himem : "img" ∉ field.properties := by simpa using himg
    have hlbmem : "path" ∈ field.properties ∨ "font" ∈ field.properties := by
      rcases hlb with h | h
      · exact Or.inl (by simpa using h)
      · exact Or.inr (by simpa using h)
    have hne : ¬ field.properties.length = 0 := by
      intro h
      rw [List.length_eq_zero] at h
      rw [h] at hlbmem
      simp at hlbmem
    constructor
    · rw [processFieldSync, if_neg hne, if_neg (by simp [humem]),
        if_neg (by simp [hnmem]),
        if_pos (by rcases hlbmem with h | h <;> simp [h])]
      rw [hval]
      simp [asString, hrd, himem, Except.map, exceptBind_ok, exceptBind_error]
    · rw [processField, if_neg hne, if_neg (by simp [humem]),
        if_neg (by simp [hnmem])]
      rw [hval]
      rcases hlbmem with h | h <;>
        simp [asString, hrd, himem, h, jsShow, Except.map, exceptBind_ok,
          exceptBind_error]

/-- Witness for C4: on a filesystem where every read fails, an `(img)` field
resolves to the placeholder asset in both resolvers, while a `(path)` field
fails with the read error. -/
theorem c4_img_placeholder_witness :
    (enoentPrims.fsys (enoentPrims.pathJoin "d" "missing.png") =
        Except.error "ENOENT: d/missing.png" ∧
      enoentPrims.imgSize enoentPrims.placeholder = some (3, 3)) ∧
    (processFieldSync enoentPrims
        (Field.mk "image" ["img"] false (RawValue.str "missing.png")) none
        (Dirname.dir "d") =
      Except.ok (Leaf.asset
        { dirname := some (Dirname.dir "d"), path := some "d/missing.png",
          mimeType := some "mime:placeholder.png",
          buffer := some [9, 9, 9],
          dataUri := some "data:mime:placeholder.png;base64,3",
          dims := some (3, 3), wrappr := none }) ∧
     processField enoentPrims
        (Field.mk "image" ["img"] false (RawValue.str "missing.png")) none
        (Dirname.dir "d") =
      Except.ok (Leaf.asset
        { dirname := some (Dirname.dir "d"), path := some "d/missing.png",
          mimeType := some "mime:placeholder.png",
          buffer := some [9, 9, 9],
          dataUri := some "data:mime:placeholder.png;base64,3",
          dims := some (3, 3), wrappr := none })) ∧
    (processFieldSync enoentPrims
        (Field.mk "template" ["path"] false (RawValue.str "missing.png")) none
        (Dirname.dir "d") = Except.error "ENOENT: d/missing.png" ∧
     processField enoentPrims
        (Field.mk "template" ["path"] false (RawValue.str "missing.png")) none
        (Dirname.dir "d") = Except.error "ENOENT: d/missing.png") :=
  ⟨⟨rfl, rfl⟩,
   (c4_img_placeholder enoentPrims
      (Field.mk "image" ["img"] false (RawValue.str "missing.png")) none
      "d" "missing.png" "ENOENT: d/missing.png" (3, 3) rfl (by decide)
      (by decide) rfl rfl).1 (by decide) (by decide),
   (c4_img_placeholder enoentPrims
      (Field.mk "template" ["path"] false (RawValue.str "missing.png")) none
      "d" "missing.png" "ENOENT: d/missing.png" (3, 3) rfl (by decide)
      (by decide) rfl rfl).2 (by decide) (Or.inl (by decide))⟩

/-- C4 counterexample: a terminal field declaring both `img` and `font`
whose filesystem read fails.  Both resolvers substitute the placeholder PNG,
but then feed it to the font parser, which rejects it (as `WordWrappr` does
with PNG bytes), so resolution fails with a font-parse error in both modes
even though `img` is among the declared properties — refuting the original
claim that any `img`-declared field survives the read failure. -/
theorem c4_counterexample :
    processFieldSync pngFontPrims
        (Field.mk "glyphs" ["img", "font"] false (RawValue.str "missing.png"))
        none (Dirname.dir "d") =
      Except.error "Font could not be parsed: d/missing.png" ∧
    processField pngFontPrims
        (Field.mk "glyphs" ["img", "font"] false (RawValue.str "missing.png"))
        none (Dirname.dir "d") =
      Except.error "Font could not be parsed: d/missing.png" :=
  ⟨rfl, rfl⟩

/-! ### C5: duplicate entries and array accumulation (src/lib/options.js) -/

/-- C5: in `convertKeysToFields` of src/lib/options.js, two different raw
keys parsing to the same non-array field name are a fatal duplicate-entry
error, while array-marked keys are exempt: each occurrence appends its value
in key order, so three array-marked keys with the same field name and values
`v1`, `v2`, `v3` produce the single field holding the ordered sequence
`[v1, v2, v3]` (properties taken from the first key). -/
theorem c5_duplicate_and_array (dn : Dirname) (k1 k2 k3 : String)
    (v1 v2 v3 : RawValue) (fd1 fd2 fd3 : FieldKey)
    (h1 : libOptions.parseFieldKey k1 = Except.ok fd1)
    (h2 : libOptions.parseFieldKey k2 = Except.ok fd2)
    (h3 : libOptions.parseFieldKey k3 = Except.ok fd3)
    (hn2 : fd2.name = fd1.name) (hn3 : fd3.name = fd1.name)
    (hu1 : underscored k1 = false) (hu2 : underscored k2 = false)
    (hu3 : underscored k3 = false) :
    (fd1.array = false → fd2.array = false →
      libOptions.convertKeysToFields (Src.mk [(k1, v1), (k2, v2)] dn) =
        Except.error
          ("Duplicate entry in same source for field '" ++ fd1.name ++ "'")) ∧
    (fd1.array = true → fd2.array = true → fd3.array = true →
      libOptions.convertKeysToFields (Src.mk [(k1, v1), (k2, v2), (k3, v3)] dn) =
        Except.ok (CSrc.mk
          [(fd1.name,
            Field.mk fd1.name fd1.properties true (RawValue.arr [v1, v2, v3]))]
          dn)) := by
  constructor
  · intro ha1 ha2
    rw [libOptions.convertKeysToFields]
    simp only [List.foldlM_cons, List.foldlM_nil, hu1, hu2, h1, h2,
      exceptBind_ok, exceptBind_error, Bool.false_eq_true, if_false,
      ite_false, ha1, ha2, hn2, getKey, exceptPure_eq_ok]
    simp [getKey, setKey, exceptPure_eq_ok, exceptBind_ok, exceptBind_error]
  · intro ha1 ha2 ha3
    rw [libOptions.convertKeysToFields]
    simp only [List.foldlM_cons, List.foldlM_nil, hu1, hu2, hu3, h1, h2, h3,
      exceptBind_ok, exceptBind_error, Bool.false_eq_true, if_false,
      ite_false, ha1, ha2, ha3, hn2, hn3, getKey, exceptPure_eq_ok]
    simp [getKey, setKey, exceptPure_eq_ok, exceptBind_ok]

/-- Witness for C5: the keys "tags" and "tags (path)" (same non-array field
name) are a fatal duplicate, while "tags[]", "tags []", "tags [] " with
values a, b, c resolve to the single ordered array field [a, b, c]. -/
theorem c5_duplicate_and_array_witness :
    (libOptions.parseFieldKey "tags" =
        Except.ok (FieldKey.mk "tags" [] false) ∧
      libOptions.parseFieldKey "tags (path)" =
        Except.ok (FieldKey.mk "tags" ["path"] false)) ∧
    libOptions.convertKeysToFields
        (Src.mk [("tags", RawValue.str "x"), ("tags (path)", RawValue.str "y")]
          (Dirname.dir "d")) =
      Except.error "Duplicate entry in same source for field 'tags'" ∧
    libOptions.convertKeysToFields
        (Src.mk [("tags[]", RawValue.str "a"), ("tags []", RawValue.str "b"),
                 ("tags [] ", RawValue.str "c")] (Dirname.dir "d")) =
      Except.ok (CSrc.mk
        [("tags", Field.mk "tags" [] true
            (RawValue.arr [RawValue.str "a", RawValue.str "b",
              RawValue.str "c"]))]
        (Dirname.dir "d")) :=
  ⟨⟨rfl, rfl⟩,
   (c5_duplicate_and_array (Dirname.dir "d") "tags" "tags (path)" "tags"
      (RawValue.str "x") (RawValue.str "y") (RawValue.str "x")
      (FieldKey.mk "tags" [] false) (FieldKey.mk "tags" ["path"] false)
      (FieldKey.mk "tags" [] false) rfl rfl rfl rfl rfl rfl rfl rfl).1
     rfl rfl,
   (c5_duplicate_and_array (Dirname.dir "d") "tags[]" "tags []" "tags [] "
      (RawValue.str "a") (RawValue.str "b") (RawValue.str "c")
      (FieldKey.mk "tags" [] true) (FieldKey.mk "tags" [] true)
      (FieldKey.mk "tags" [] true) rfl rfl rfl rfl rfl rfl rfl rfl).2
     rfl rfl rfl⟩

/-! ### C8: address lookup (Options.get) -/

theorem getRun_of_truthyAlong (full : String) (segs : List String)
    (t : Option Tree) (h : truthyAlong t segs = true) :
    getRun t segs full = Except.ok (descend t segs) := by
  induction segs generalizing t with
  | nil => simp [getRun, descend]
  | cons n rest ih =>
      rw [truthyAlong, Bool.and_eq_true] at h
      rw [getRun, if_pos h.1]
      rw [ih _ h.2]
      simp [descend]

theorem getRun_error_of_absent (full : String) (pre : List String)
    (n : String) (rest : List String) (t : Option Tree)
    (hrest : rest ≠ [])
    (htr : truthyAlong t (pre ++ [n]) = true)
    (habs : descend t (pre ++ [n]) = none) :
    getRun t (pre ++ n :: rest) full =
      Except.error ("Cannot find field: " ++ full) := by
  induction pre generalizing t with
  | nil =>
      simp only [List.nil_append] at htr habs ⊢
      rw [truthyAlong, Bool.and_eq_true] at htr
      simp only [descend, List.foldl_cons, List.foldl_nil] at habs
      rw [getRun, if_pos htr.1]
      obtain ⟨r, rs, rfl⟩ := List.exists_cons_of_ne_nil hrest
      rw [habs, getRun, if_neg (by simp [jsTruthy])]
  | cons p ps ih =>
      rw [List.cons_append, truthyAlong, Bool.and_eq_true] at htr
      simp only [descend, List.cons_append, List.foldl_cons] at habs
      rw [List.cons_append, getRun, if_pos htr.1]
      exact ih _ htr.2 habs

/-- C8 (amended): Options.get throws the "Cannot find field" error exactly
when a falsy or undefined value is reached before the final path segment — in
particular whenever a non-final segment is absent — while, when every check
passes, it returns the pure descent: so a path whose final segment is absent
returns `undefined` without any error. -/
theorem c8_get_missing_segment (data : List (String × Tree))
    (fullFieldName : String) (segs : List String)
    (hsegs : (splitChar '/' fullFieldName).drop 1 = segs) :
    (truthyAlong (some (Tree.node data)) segs = true →
      Options.get data fullFieldName =
        Except.ok (descend (some (Tree.node data)) segs)) ∧
    (∀ pre n rest, segs = pre ++ n :: rest → rest ≠ [] →
      truthyAlong (some (Tree.node data)) (pre ++ [n]) = true →
      descend (some (Tree.node data)) (pre ++ [n]) = none →
      Options.get data fullFieldName =
        Except.error ("Cannot find field: " ++ fullFieldName)) := by
  constructor
  · intro h
    rw [Options.get, hsegs]
    exact getRun_of_truthyAlong _ _ _ h
  · intro pre n rest hdecomp hrest htr habs
    rw [Options.get, hsegs, hdecomp]
    exact getRun_error_of_absent _ _ _ _ _ hrest htr habs

/-- Witness for C8: on the empty tree, looking up "/missing" returns
`undefined` without an error, while looking up "/a/b" (first segment absent,
not final) throws "Cannot find field". -/
theorem c8_get_missing_segment_witness :
    Options.get [] "/missing" = Except.ok none ∧
    Options.get [] "/a/b" = Except.error "Cannot find field: /a/b" := by
  constructor
  · exact (c8_get_missing_segment [] "/missing" ["missing"] rfl).1 (by decide)
  · exact (c8_get_missing_segment [] "/a/b" ["a", "b"] rfl).2 [] "a" ["b"]
      rfl (by decide) rfl rfl

/-- Counterexample to C8 as stated: the sole segment of "/missing" is absent
from the empty resolved tree, yet Options.get does not fail — it returns
`undefined`. -/
theorem c8_counterexample : Options.get [] "/missing" = Except.ok none := rfl

/-! ### General lemmas about the page layout engine -/

theorem jsTrunc_of_nonneg (q : ℚ) (h : 0 ≤ q) : jsTrunc q = ⌊q⌋ := by
  rw [jsTrunc, if_neg (not_lt.mpr h)]

theorem jsTrunc_of_neg (q : ℚ) (h : q < 0) : jsTrunc q = -⌊-q⌋ := by
  rw [jsTrunc, if_pos h]

theorem make_error_iff (vp : Viewport) (strategy : String) (rev : Bool) :
    PageRenderer.make vp strategy rev =
        Except.error "Cannot fit any cards onto the page." ↔
      PageRenderer.hCap vp * PageRenderer.vCap vp = 0 := by
  rw [PageRenderer.make, PageRenderer.hCap, PageRenderer.vCap]
  by_cases h : jsTrunc ((vp.width - 2 * vp.printMargin) / vp.cardWidth) *
      jsTrunc ((vp.height - 2 * vp.printMargin) / vp.cardHeight) = 0
  · rw [if_pos h]
    simp [PageRenderer.hCap, PageRenderer.vCap, h]
  · rw [if_neg h]
    simp [PageRenderer.hCap, PageRenderer.vCap, h]

theorem make_ok_spec (vp : Viewport) (strategy : String) (rev : Bool)
    (h : PageRenderer.hCap vp * PageRenderer.vCap vp ≠ 0) :
    ∃ r, PageRenderer.make vp strategy rev = Except.ok r ∧
      r.viewport = vp ∧ r.reversed = rev ∧
      r.capacity = PageRenderer.hCap vp * PageRenderer.vCap vp ∧
      r.placeholders.length =
        (PageRenderer.vCap vp).toNat * (PageRenderer.hCap vp).toNat := by
  rw [PageRenderer.hCap, PageRenderer.vCap] at h
  rw [PageRenderer.make, if_neg h]
  refine ⟨_, rfl, rfl, rfl, rfl, ?_⟩
  by_cases hs : strategy = "evenSpacing" <;>
    simp [hs, List.length_flatten, List.map_map, Function.comp_def,
      List.map_const', List.sum_replicate, smul_eq_mul, Nat.mul_comm,
      PageRenderer.hCap, PageRenderer.vCap]

theorem renderOne_ok (r : PageRenderer) (cards : List String) (y : ℚ)
    (rev : Bool) (h : (cards.length : ℤ) ≤ r.capacity) :
    renderOne r cards y rev = Except.ok (pageOf r cards y rev) := by
  rw [renderOne, if_pos h, pageOf]

theorem pageOf_placed_content (r : PageRenderer) (cards : List String)
    (y : ℚ) (rev : Bool) :
    (pageOf r cards y rev).placed.map Placed.content =
      (List.range r.placeholders.length).map
        (fun i => cardOrDefault (cards.get? i)) := by
  rw [pageOf]
  simp only [List.map_map]
  have : (Placed.content ∘ fun p : Nat × Placeholder =>
      Placed.mk (if rev then p.2.xr else p.2.x) p.2.y
        (cardOrDefault (cards.get? p.1))) =
      (fun i => cardOrDefault (cards.get? i)) ∘ Prod.fst := by
    funext p
    rfl
  rw [this, ← List.map_map, List.enum_map_fst]

theorem pageOf_placed_length (r : PageRenderer) (cards : List String)
    (y : ℚ) (rev : Bool) :
    (pageOf r cards y rev).placed.length = r.placeholders.length := by
  rw [pageOf]
  simp

theorem chunksGo_cons (cap fuel : Nat) (x : α) (xs : List α) :
    chunksGo cap (fuel + 1) (x :: xs) =
      (x :: xs.take (cap - 1)) :: chunksGo cap fuel (xs.drop (cap - 1)) := rfl

theorem chunksGo_length_le (cap : Nat) :
    ∀ (fuel : Nat) (l : List α) (c : List α), c ∈ chunksGo cap fuel l →
      c.length ≤ cap - 1 + 1 := by
  intro fuel
  induction fuel with
  | zero =>
      intro l c hc
      cases l with
      | nil => simp [chunksGo] at hc
      | cons x xs => simp [chunksGo] at hc
  | succ fuel ih =>
      intro l c hc
      cases l with
      | nil => simp [chunksGo] at hc
      | cons x xs =>
          rw [chunksGo_cons] at hc
          rcases List.mem_cons.mp hc with rfl | hc
          · simp only [List.length_cons]
            have := List.length_take_le (cap - 1) xs
            omega
          · exact ih _ _ hc

theorem chunksGo_length (cap : Nat) (hcap : 1 ≤ cap) :
    ∀ (fuel : Nat) (l : List α), l.length ≤ fuel →
      (chunksGo cap fuel l).length = (l.length + cap - 1) / cap := by
  intro fuel
  induction fuel with
  | zero =>
      intro l hl
      rw [Nat.le_zero, List.length_eq_zero] at hl
      subst hl
      simp only [chunksGo, List.length_nil]
      symm
      apply Nat.div_eq_of_lt
      omega
  | succ fuel ih =>
      intro l hl
      cases l with
      | nil =>
          simp only [chunksGo, List.length_nil]
          symm
          apply Nat.div_eq_of_lt
          omega
      | cons x xs =>
          have hdl : (xs.drop (cap - 1)).length ≤ fuel := by
            rw [List.length_drop]
            rw [List.length_cons] at hl
            omega
          rw [chunksGo_cons]
          simp only [List.length_cons]
          rw [ih _ hdl, List.length_drop]
          have e2 : xs.length + 1 + cap - 1 = xs.length + cap := by omega
          rcases Nat.lt_or_ge xs.length (cap - 1) with hlt | hge
          · have e1 : xs.length - (cap - 1) = 0 := by omega
            rw [e1, e2, Nat.add_div_right _ (by omega : 0 < cap)]
            have e3 : (0 + cap - 1) / cap = 0 := Nat.div_eq_of_lt (by omega)
            have e4 : xs.length / cap = 0 := Nat.div_eq_of_lt (by omega)
            rw [e3, e4]
          · have e5 : xs.length - (cap - 1) + cap - 1 = xs.length := by omega
            rw [e5, e2, Nat.add_div_right _ (by omega : 0 < cap)]

theorem chunksOf_length (cap : Nat) (hcap : 1 ≤ cap) (l : List α) :
    (chunksOf cap l).length = (l.length + cap - 1) / cap :=
  chunksGo_length cap hcap l.length l (Nat.le_refl _)

theorem chunksOf_mem_length_le (cap : Nat) (l : List α) (c : List α)
    (hc : c ∈ chunksOf cap l) : c.length ≤ cap - 1 + 1 :=
  chunksGo_length_le cap l.length l c hc

theorem foldlM_append_pages {β : Type} (f : β → Page) (l : List β)
    (step : List Page → β → Except String (List Page))
    (hstep : ∀ acc c, c ∈ l → step acc c = Except.ok (acc ++ [f c])) :
    ∀ acc : List Page, l.foldlM step acc = Except.ok (acc ++ l.map f) := by
  induction l with
  | nil => intro acc; simp [exceptPure_eq_ok]
  | cons x xs ih =>
      intro acc
      rw [List.foldlM_cons, hstep acc x (List.mem_cons_self _ _),
        exceptBind_ok]
      rw [ih (fun a c hc => hstep a c (List.mem_cons_of_mem _ hc))]
      simp

theorem chunk_fits (r : PageRenderer) (h : 0 < r.capacity)
    (cards : List String) (c : List String)
    (hc : c ∈ chunksOf r.capacity.toNat cards) :
    (c.length : ℤ) ≤ r.capacity := by
  have h1 := chunksOf_mem_length_le r.capacity.toNat cards c hc
  have h2 : 1 ≤ r.capacity.toNat := by omega
  have h3 : (r.capacity.toNat : ℤ) = r.capacity := Int.toNat_of_nonneg (by omega)
  omega

theorem render_spec (r : PageRenderer) (cards : List String)
    (h : 0 < r.capacity) :
    r.render cards none = Except.ok
      ((chunksOf r.capacity.toNat cards).map
        (fun c => pageOf r c 0 r.reversed)) := by
  rw [PageRenderer.render, if_neg (not_le.mpr h)]
  have := foldlM_append_pages (fun c : Nat × List String => pageOf r c.2 0 r.reversed)
    (chunksOf r.capacity.toNat cards).enum
    (fun pages c => do
      let front ← renderOne r c.2 0 r.reversed
      pure (pages ++ [front]))
    (fun acc c hc => by
      have hmem : c.2 ∈ chunksOf r.capacity.toNat cards := by
        have : c.2 ∈ (chunksOf r.capacity.toNat cards).enum.map Prod.snd :=
          List.mem_map_of_mem Prod.snd hc
        rwa [List.enum_map_snd] at this
      dsimp only
      rw [renderOne_ok r c.2 0 r.reversed (chunk_fits r h cards c.2 hmem),
        exceptBind_ok]
      rfl) []
  rw [this]
  rw [List.nil_append]
  have hsnd : (chunksOf r.capacity.toNat cards).enum.map
      (fun c : Nat × List String => pageOf r c.2 0 r.reversed) =
      ((chunksOf r.capacity.toNat cards).enum.map Prod.snd).map
        (fun c => pageOf r c 0 r.reversed) := by
    rw [List.map_map]
    rfl
  rw [hsnd, List.enum_map_snd]

theorem concat_fold (r : PageRenderer) (rev : Bool)
    (l : List (Nat × List String))
    (hfit : ∀ c ∈ l, ((c.2.length : ℤ) ≤ r.capacity)) :
    ∀ (ps : List Page) (n : Nat),
      l.foldlM (fun out c => do
          let front ← renderOne r c.2 (out.numPages : ℚ) rev
          pure (ConcatOut.mk (out.pages ++ [front]) (out.numPages + 1)))
        (ConcatOut.mk ps n) =
      Except.ok (ConcatOut.mk
        (ps ++ concatPages r rev n (l.map Prod.snd)) (n + l.length)) := by
  induction l with
  | nil => intro ps n; simp [List.foldlM, concatPages, exceptPure_eq_ok]
  | cons x xs ih =>
      intro ps n
      rw [List.foldlM_cons]
      dsimp only
      rw [renderOne_ok r x.2 (n : ℚ) rev (hfit x (List.mem_cons_self _ _)),
        exceptBind_ok, exceptPure_eq_ok, exceptBind_ok,
        ih (fun c hc => hfit c (List.mem_cons_of_mem _ hc))]
      simp only [concatPages, List.map_cons, List.length_cons,
        Except.ok.injEq, ConcatOut.mk.injEq]
      constructor
      · simp
      · omega

theorem renderConcatenated_spec (r : PageRenderer) (cards : List String)
    (h : 0 < r.capacity) :
    r.renderConcatenated cards none = Except.ok
      (ConcatOut.mk
        (concatPages r r.reversed 0 (chunksOf r.capacity.toNat cards))
        (chunksOf r.capacity.toNat cards).length) := by
  rw [PageRenderer.renderConcatenated, if_neg (not_le.mpr h)]
  have := concat_fold r r.reversed (chunksOf r.capacity.toNat cards).enum
    (fun c hc => by
      have hmem : c.2 ∈ chunksOf r.capacity.toNat cards := by
        have : c.2 ∈ (chunksOf r.capacity.toNat cards).enum.map Prod.snd :=
          List.mem_map_of_mem Prod.snd hc
        rwa [List.enum_map_snd] at this
      exact chunk_fits r h cards c.2 hmem) [] 0
  rw [this, List.enum_map_snd]
  simp [List.enum_length]

theorem concatPages_map_placed (r : PageRenderer) (rev : Bool) :
    ∀ (n : Nat) (l : List (List String)),
      (concatPages r rev n l).map Page.placed =
        (l.map (fun c => pageOf r c 0 rev)).map Page.placed := by
  intro n l
  induction l generalizing n with
  | nil => simp [concatPages]
  | cons c cs ih =>
      rw [concatPages]
      simp only [List.map_cons]
      rw [ih (n + 1)]
      rfl

theorem hCap_612 : PageRenderer.hCap (Viewport.mk 612 792 180 252 0) = 3 := by
  rw [PageRenderer.hCap, jsTrunc_of_nonneg _ (by norm_num), Int.floor_eq_iff]
    <;> norm_num

theorem vCap_612 : PageRenderer.vCap (Viewport.mk 612 792 180 252 0) = 3 := by
  rw [PageRenderer.vCap, jsTrunc_of_nonneg _ (by norm_num), Int.floor_eq_iff]
    <;> norm_num

/-- C6 (amended): the PageRenderer's capacity is
`Math.trunc(printableWidth / itemWidth) * Math.trunc(printableHeight /
itemHeight)` — equal to the floor-based formula whenever the printable-area
ratios are nonnegative — construction fails with the "Cannot fit" error
exactly when this truncated capacity is 0, and for a 612×792 sheet with
180×252 items and zero margin the capacity is 9. -/
theorem c6_capacity_trunc (vp : Viewport) (strategy : String) (rev : Bool) :
    (PageRenderer.make vp strategy rev =
        Except.error "Cannot fit any cards onto the page." ↔
      PageRenderer.hCap vp * PageRenderer.vCap vp = 0) ∧
    (PageRenderer.hCap vp * PageRenderer.vCap vp ≠ 0 →
      ∃ r, PageRenderer.make vp strategy rev = Except.ok r ∧
        r.capacity = PageRenderer.hCap vp * PageRenderer.vCap vp) ∧
    (0 ≤ (vp.width - 2 * vp.printMargin) / vp.cardWidth →
     0 ≤ (vp.height - 2 * vp.printMargin) / vp.cardHeight →
      PageRenderer.hCap vp * PageRenderer.vCap vp =
        ⌊(vp.width - 2 * vp.printMargin) / vp.cardWidth⌋ *
          ⌊(vp.height - 2 * vp.printMargin) / vp.cardHeight⌋) ∧
    PageRenderer.hCap (Viewport.mk 612 792 180 252 0) *
        PageRenderer.vCap (Viewport.mk 612 792 180 252 0) = 9 := by
  refine ⟨make_error_iff vp strategy rev, ?_, ?_, ?_⟩
  · intro h
    obtain ⟨r, hr, _, _, hcap, _⟩ := make_ok_spec vp strategy rev h
    exact ⟨r, hr, hcap⟩
  · intro h1 h2
    rw [PageRenderer.hCap, PageRenderer.vCap, jsTrunc_of_nonneg _ h1,
      jsTrunc_of_nonneg _ h2]
  · rw [hCap_612, vCap_612]
    norm_num

/-- Witness for C6: at 612×792 with 180×252 items and zero margin the
constructor succeeds and the capacity is 9. -/
theorem c6_capacity_trunc_witness :
    PageRenderer.hCap (Viewport.mk 612 792 180 252 0) *
        PageRenderer.vCap (Viewport.mk 612 792 180 252 0) = 9 ∧
    ∃ r, PageRenderer.make (Viewport.mk 612 792 180 252 0) "tight" false =
        Except.ok r ∧ r.capacity = 9 := by
  have h9 := (c6_capacity_trunc (Viewport.mk 612 792 180 252 0) "tight"
    false).2.2.2
  refine ⟨h9, ?_⟩
  obtain ⟨r, hr, hcap⟩ := (c6_capacity_trunc (Viewport.mk 612 792 180 252 0)
    "tight" false).2.1 (by rw [h9]; norm_num)
  exact ⟨r, hr, by rw [hcap, h9]⟩

/-- Counterexample to C6 as stated: with a print margin of 310 on a 612×792
sheet and a 180×100 item, the floor-based capacity is
⌊-28/180⌋ * ⌊172/100⌋ = (-1) * 1 = -1 ≠ 0, so the claim predicts successful
construction, yet the constructor — which uses Math.trunc, giving 0 * 1 = 0 —
fails with the "Cannot fit" error. -/
theorem c6_counterexample :
    PageRenderer.make (Viewport.mk 612 792 180 100 310) "tight" false =
      Except.error "Cannot fit any cards onto the page." ∧
    ⌊(((612 : ℚ) - 2 * 310) / 180)⌋ * ⌊(((792 : ℚ) - 2 * 310) / 100)⌋ ≠ 0 := by
  constructor
  · rw [make_error_iff]
    have hh : PageRenderer.hCap (Viewport.mk 612 792 180 100 310) = 0 := by
      rw [PageRenderer.hCap, jsTrunc_of_neg _ (by norm_num), neg_eq_zero,
        Int.floor_eq_zero_iff]
      constructor <;> norm_num
    rw [hh]
    norm_num
  · have h1 : ⌊(((612 : ℚ) - 2 * 310) / 180)⌋ = -1 := by
      rw [Int.floor_eq_iff] <;> norm_num
    have h2 : ⌊(((792 : ℚ) - 2 * 310) / 100)⌋ = 1 := by
      rw [Int.floor_eq_iff] <;> norm_num
    rw [h1, h2]
    norm_num

/-- C7 (amended): pagination groups the cards into consecutive chunks of
size `capacity` (so the page count is the ceiling of `n / capacity`), the
concatenated output consists of the same pages as the discrete per-page
output (only the page `y` attribute differs), and in BOTH outputs every
grid slot with no (or an empty) card — in particular every missing slot of
the final partial chunk — renders as the fixed DEFAULT_CARD filler
rectangle. -/
theorem c7_pagination_fill (r : PageRenderer) (cards : List String)
    (h : 0 < r.capacity) :
    ∃ pages out,
      r.render cards none = Except.ok pages ∧
      r.renderConcatenated cards none = Except.ok out ∧
      pages.length = (cards.length + r.capacity.toNat - 1) / r.capacity.toNat ∧
      out.numPages = pages.length ∧
      out.pages.map Page.placed = pages.map Page.placed ∧
      pages.map (fun p => p.placed.map Placed.content) =
        (chunksOf r.capacity.toNat cards).map
          (fun c => (List.range r.placeholders.length).map
            (fun i => cardOrDefault (c.get? i))) := by
  refine ⟨_, _, render_spec r cards h, renderConcatenated_spec r cards h,
    ?_, ?_, ?_, ?_⟩
  · rw [List.length_map, chunksOf_length _ (by omega)]
  · rw [List.length_map]
  · rw [concatPages_map_placed]
  · rw [List.map_map]
    apply List.map_congr_left
    intro c _
    exact pageOf_placed_content r c 0 r.reversed

/-- Witness for C7: a renderer with capacity 2 and two grid slots paginates
three cards into two pages; the second page holds the third card and one
DEFAULT_CARD filler, identically in discrete and concatenated output. -/
theorem c7_pagination_fill_witness :
    (0 : ℤ) < 2 ∧
    ∃ pages out,
      (PageRenderer.mk (Viewport.mk 10 10 5 5 0) false 2
          [Placeholder.mk 0 0 0, Placeholder.mk 0 0 0]).render
          ["a", "b", "c"] none = Except.ok pages ∧
      (PageRenderer.mk (Viewport.mk 10 10 5 5 0) false 2
          [Placeholder.mk 0 0 0, Placeholder.mk 0 0 0]).renderConcatenated
          ["a", "b", "c"] none = Except.ok out ∧
      pages.length = (3 + (2 : ℤ).toNat - 1) / (2 : ℤ).toNat ∧
      out.numPages = pages.length ∧
      out.pages.map Page.placed = pages.map Page.placed ∧
      pages.map (fun p => p.placed.map Placed.content) =
        (chunksOf (2 : ℤ).toNat ["a", "b", "c"]).map
          (fun c => (List.range 2).map
            (fun i => cardOrDefault (c.get? i))) :=
  ⟨by norm_num,
   c7_pagination_fill
     (PageRenderer.mk (Viewport.mk 10 10 5 5 0) false 2
       [Placeholder.mk 0 0 0, Placeholder.mk 0 0 0])
     ["a", "b", "c"] (by norm_num)⟩

/-- Counterexample to C7 as stated: rendering ten cards at capacity 9
through the real constructor, the second page of the CONCATENATED output is
not an omission of the missing items — it carries the tenth card plus eight
DEFAULT_CARD filler rectangles, exactly like the discrete per-page output. -/
theorem c7_counterexample :
    ∃ r out,
      PageRenderer.make (Viewport.mk 612 792 180 252 0) "tight" false =
        Except.ok r ∧
      r.renderConcatenated
        ["c1", "c2", "c3", "c4", "c5", "c6", "c7", "c8", "c9", "c10"] none =
        Except.ok out ∧
      out.numPages = 2 ∧
      (out.pages.get? 1).map (fun p => p.placed.map Placed.content) =
        some ("c10" :: List.replicate 8 DEFAULT_CARD) := by
  have hcv : PageRenderer.hCap (Viewport.mk 612 792 180 252 0) *
      PageRenderer.vCap (Viewport.mk 612 792 180 252 0) = 9 := by
    rw [hCap_612, vCap_612]
    norm_num
  obtain ⟨r, hr, _, _, hcap, hlen⟩ :=
    make_ok_spec (Viewport.mk 612 792 180 252 0) "tight" false
      (by rw [hcv]; norm_num)
  rw [hcv] at hcap
  rw [hCap_612, vCap_612] at hlen
  have hpos : 0 < r.capacity := by rw [hcap]; norm_num
  obtain ⟨pages, out, hrender, hconcat, hplen, hnum, hmapeq, hcontents⟩ :=
    c7_pagination_fill r
      ["c1", "c2", "c3", "c4", "c5", "c6", "c7", "c8", "c9", "c10"] hpos
  refine ⟨r, out, hr, hconcat, ?_, ?_⟩
  · rw [hnum, hplen, hcap]
    decide
  · have h2 : (out.pages.get? 1).map Page.placed =
        (pages.get? 1).map Page.placed := by
      have := congrArg (fun l => l.get? 1) hmapeq
      simpa [List.get?_map] using this
    have h3 : (pages.get? 1).map (fun p => p.placed.map Placed.content) =
        some ("c10" :: List.replicate 8 DEFAULT_CARD) := by
      have := congrArg (fun l => l.get? 1) hcontents
      simp only [List.get?_map] at this
      rw [this]
      rw [hcap] at *
      rw [hlen]
      decide
    calc (out.pages.get? 1).map (fun p => p.placed.map Placed.content)
        = ((out.pages.get? 1).map Page.placed).map
            (fun l => l.map Placed.content) := by
          cases out.pages.get? 1 <;> rfl
      _ = ((pages.get? 1).map Page.placed).map
            (fun l => l.map Placed.content) := by rw [h2]
      _ = (pages.get? 1).map (fun p => p.placed.map Placed.content) := by
          cases pages.get? 1 <;> rfl
      _ = some ("c10" :: List.replicate 8 DEFAULT_CARD) := h3

/-- C10: when both printable dimensions are negative enough that the two
truncated capacities are negative, the PageRenderer constructor does not
raise the "Cannot fit" error — the capacity, a product of two negatives, is
positive — yet the placeholder grid is empty, so both render and
renderConcatenated succeed while placing no card at all: every supplied
card is silently dropped from the output. -/
theorem c10_negative_caps_empty_grid (vp : Viewport) (strategy : String)
    (rev : Bool) (hh : PageRenderer.hCap vp < 0)
    (hv : PageRenderer.vCap vp < 0) :
    ∃ r, PageRenderer.make vp strategy rev = Except.ok r ∧
      0 < r.capacity ∧ r.placeholders = [] ∧
      (∀ cards : List String, ∃ pages,
        r.render cards none = Except.ok pages ∧
        pages.length =
          (cards.length + r.capacity.toNat - 1) / r.capacity.toNat ∧
        ∀ p ∈ pages, p.placed = []) ∧
      (∀ cards : List String, ∃ out,
        r.renderConcatenated cards none = Except.ok out ∧
        ∀ p ∈ out.pages, p.placed = []) := by
  have hcap0 : 0 < PageRenderer.hCap vp * PageRenderer.vCap vp :=
    mul_pos_of_neg_of_neg hh hv
  obtain ⟨r, hr, _, _, hcap, hlen⟩ := make_ok_spec vp strategy rev
    (by omega)
  have hpos : 0 < r.capacity := by rw [hcap]; exact hcap0
  have hempty : r.placeholders = [] := by
    rw [← List.length_eq_zero, hlen]
    have h1 : (PageRenderer.vCap vp).toNat = 0 := by omega
    rw [h1, Nat.zero_mul]
  refine ⟨r, hr, hpos, hempty, ?_, ?_⟩
  · intro cards
    refine ⟨_, render_spec r cards hpos, ?_, ?_⟩
    · rw [List.length_map, chunksOf_length _ (by omega)]
    · intro p hp
      rw [List.mem_map] at hp
      obtain ⟨c, _, rfl⟩ := hp
      rw [pageOf, hempty]
      rfl
  · intro cards
    refine ⟨_, renderConcatenated_spec r cards hpos, ?_⟩
    intro p hp
    have : p.placed ∈ (concatPages r r.reversed 0
        (chunksOf r.capacity.toNat cards)).map Page.placed :=
      List.mem_map_of_mem Page.placed hp
    rw [concatPages_map_placed, List.map_map] at this
    rw [List.mem_map] at this
    obtain ⟨c, _, hc⟩ := this
    rw [← hc]
    show (pageOf r c 0 r.reversed).placed = []
    rw [pageOf, hempty]
    rfl

/-- Witness for C10: with a 600-point print margin on a 612×792 sheet both
capacities are negative (-3 and -1), construction succeeds with capacity 3,
and the single supplied card disappears from the rendered page. -/
theorem c10_negative_caps_empty_grid_witness :
    (PageRenderer.hCap (Viewport.mk 612 792 180 252 600) < 0 ∧
      PageRenderer.vCap (Viewport.mk 612 792 180 252 600) < 0) ∧
    ∃ r, PageRenderer.make (Viewport.mk 612 792 180 252 600) "tight" false =
        Except.ok r ∧
      0 < r.capacity ∧ r.placeholders = [] ∧
      ∃ pages, r.render ["x"] none = Except.ok pages ∧
        ∀ p ∈ pages, p.placed = [] := by
  have hh : PageRenderer.hCap (Viewport.mk 612 792 180 252 600) = -3 := by
    rw [PageRenderer.hCap, jsTrunc_of_neg _ (by norm_num), neg_eq_iff_eq_neg,
      neg_neg, Int.floor_eq_iff] <;> norm_num
  have hv : PageRenderer.vCap (Viewport.mk 612 792 180 252 600) = -1 := by
    rw [PageRenderer.vCap, jsTrunc_of_neg _ (by norm_num), neg_eq_iff_eq_neg,
      neg_neg, Int.floor_eq_iff] <;> norm_num
  obtain ⟨r, hr, hpos, hempty, hrender, _⟩ :=
    c10_negative_caps_empty_grid (Viewport.mk 612 792 180 252 600) "tight"
      false (by rw [hh]; norm_num) (by rw [hv]; norm_num)
  obtain ⟨pages, hpages, _, hplaced⟩ := hrender ["x"]
  exact ⟨⟨by rw [hh]; norm_num, by rw [hv]; norm_num⟩,
    r, hr, hpos, hempty, pages, hpages, hplaced⟩

/-! ### C3: inconsistent nesting -/

theorem convert_single (k : String) (v : RawValue) (dn : Dirname)
    (fd : FieldKey) (hu : underscored k = false)
    (hp : parseFieldKey k = Except.ok fd) :
    convertKeysToFields (Src.mk [(k, v)] dn) =
      Except.ok (CSrc.mk [(fd.name, Field.mk fd.name fd.properties fd.array v)]
        dn) := by
  rw [convertKeysToFields]
  simp [List.foldlM, hu, hp, getKey, exceptPure_eq_ok, exceptBind_ok]

theorem parse_name_not_underscored (k : String) (fd : FieldKey)
    (hp : parseFieldKey k = Except.ok fd) (hu : underscored k = false) :
    underscored fd.name = false := by
  rw [parseFieldKey] at hp
  by_cases he : (k.data.takeWhile wordChar).isEmpty
  · rw [if_pos he] at hp
    cases hp
  · rw [if_neg he] at hp
    rw [Except.ok.injEq] at hp
    subst hp
    show decide ((k.data.takeWhile wordChar).head? = some '_') = false
    cases hk : k.data with
    | nil =>
        rw [hk] at he
        simp at he
    | cons c rest =>
        rw [underscored, hk] at hu
        simp only [List.head?, Option.some.injEq, decide_eq_false_iff_not]
          at hu
        by_cases hw : wordChar c
        · rw [List.takeWhile_cons, if_pos hw]
          simp [hu]
        · rw [hk, List.takeWhile_cons, if_neg hw] at he
          simp at he

theorem consumeSync_two_single_mixed (prims : Prims) (n : Nat)
    (k1 k2 : String) (v1 v2 : RawValue) (d1 d2 : Dirname)
    (fd1 fd2 : FieldKey)
    (h1 : parseFieldKey k1 = Except.ok fd1)
    (h2 : parseFieldKey k2 = Except.ok fd2)
    (hn : fd2.name = fd1.name)
    (hu1 : underscored k1 = false) (hu2 : underscored k2 = false)
    (hmix : isConsumable (Field.mk fd1.name fd1.properties fd1.array v1) ≠
      isConsumable (Field.mk fd2.name fd2.properties fd2.array v2)) :
    consumeSync prims (n + 1) [] ""
        [Src.mk [(k1, v1)] d1, Src.mk [(k2, v2)] d2] =
      Except.error
        ("Inconsistent nesting for field with name '" ++
          ("/" ++ fd1.name) ++ "'") := by
  rw [consumeSync]
  rw [List.mapM_cons, List.mapM_cons, List.mapM_nil,
    convert_single k1 v1 d1 fd1 hu1 h1, convert_single k2 v2 d2 fd2 hu2 h2]
  simp only [exceptPure_eq_ok, exceptBind_ok]
  have hun := parse_name_not_underscored k1 fd1 h1 hu1
  have hnames : getAllFieldNames
      [CSrc.mk [(fd1.name, Field.mk fd1.name fd1.properties fd1.array v1)] d1,
       CSrc.mk [(fd2.name, Field.mk fd2.name fd2.properties fd2.array v2)] d2]
      = [fd1.name] := by
    rw [getAllFieldNames]
    simp [hn, List.filter, hun, dedupFirst, dedupFirstGo]
  rw [hnames]
  rw [List.foldlM_cons]
  have hds : ([CSrc.mk
        [(fd1.name, Field.mk fd1.name fd1.properties fd1.array v1)] d1,
      CSrc.mk [(fd2.name, Field.mk fd2.name fd2.properties fd2.array v2)]
        d2].filterMap (fun s =>
          (getKey s.fields fd1.name).map (fun fld => (fld, s.dirname)))) =
      [(Field.mk fd1.name fd1.properties fd1.array v1, d1),
       (Field.mk fd2.name fd2.properties fd2.array v2, d2)] := by
    simp [List.filterMap, getKey, hn]
  have hstep : consumeStepSync prims
      (fun d p s => consumeSync prims n d p s)
      [CSrc.mk [(fd1.name, Field.mk fd1.name fd1.properties fd1.array v1)] d1,
       CSrc.mk [(fd2.name, Field.mk fd2.name fd2.properties fd2.array v2)] d2]
      "" [] fd1.name =
      Except.error ("Inconsistent nesting for field with name '" ++
        ("/" ++ fd1.name) ++ "'") := by
    rw [consumeStepSync]
    simp only [hds]
    rw [if_neg]
    · rfl
    · simp only [List.all_cons, List.all_nil, Bool.and_true,
        Bool.and_eq_true, decide_eq_true_eq]
      intro hall
      exact hmix hall.2.symm
  rw [hstep]
  rfl

theorem consume_two_single_mixed (prims : Prims) (n : Nat)
    (k1 k2 : String) (v1 v2 : RawValue) (d1 d2 : Dirname)
    (fd1 fd2 : FieldKey)
    (h1 : parseFieldKey k1 = Except.ok fd1)
    (h2 : parseFieldKey k2 = Except.ok fd2)
    (hn : fd2.name = fd1.name)
    (hu1 : underscored k1 = false) (hu2 : underscored k2 = false)
    (hmix : isConsumable (Field.mk fd1.name fd1.properties fd1.array v1) ≠
      isConsumable (Field.mk fd2.name fd2.properties fd2.array v2)) :
    consume prims (n + 1) [] ""
        [Src.mk [(k1, v1)] d1, Src.mk [(k2, v2)] d2] =
      Except.error
        ("Inconsistent nesting for field with name '" ++
          ("/" ++ fd1.name) ++ "'") := by
  rw [consume]
  rw [List.mapM_cons, List.mapM_cons, List.mapM_nil,
    convert_single k1 v1 d1 fd1 hu1 h1, convert_single k2 v2 d2 fd2 hu2 h2]
  simp only [exceptPure_eq_ok, exceptBind_ok]
  have hun := parse_name_not_underscored k1 fd1 h1 hu1
  have hnames : getAllFieldNames
      [CSrc.mk [(fd1.name, Field.mk fd1.name fd1.properties fd1.array v1)] d1,
       CSrc.mk [(fd2.name, Field.mk fd2.name fd2.properties fd2.array v2)] d2]
      = [fd1.name] := by
    rw [getAllFieldNames]
    simp [hn, List.filter, hun, dedupFirst, dedupFirstGo]
  rw [hnames]
  rw [List.foldlM_cons]
  have hds : ([CSrc.mk
        [(fd1.name, Field.mk fd1.name fd1.properties fd1.array v1)] d1,
      CSrc.mk [(fd2.name, Field.mk fd2.name fd2.properties fd2.array v2)]
        d2].filterMap (fun s =>
          (getKey s.fields fd1.name).map (fun fld => (fld, s.dirname)))) =
      [(Field.mk fd1.name fd1.properties fd1.array v1, d1),
       (Field.mk fd2.name fd2.properties fd2.array v2, d2)] := by
    simp [List.filterMap, getKey, hn]
  have hstep : consumeStepAsync prims
      (fun d p s => consume prims n d p s)
      [CSrc.mk [(fd1.name, Field.mk fd1.name fd1.properties fd1.array v1)] d1,
       CSrc.mk [(fd2.name, Field.mk fd2.name fd2.properties fd2.array v2)] d2]
      "" [] fd1.name =
      Except.error ("Inconsistent nesting for field with name '" ++
        ("/" ++ fd1.name) ++ "'") := by
    rw [consumeStepAsync]
    simp only [hds]
    rw [if_neg]
    · rfl
    · simp only [List.all_cons, List.all_nil, Bool.and_true,
        Bool.and_eq_true, decide_eq_true_eq]
      intro hall
      exact hmix hall.2.symm
  rw [hstep]
  rfl

/-- C3: when one source gives a field a nested-mapping value and another
source gives the same field name a scalar or array value, resolution fails —
in the blocking and in the concurrent walk, and regardless of which source
has higher priority — with the "Inconsistent nesting" error naming the field
path, and no interpretation is silently picked. -/
theorem c3_inconsistent_nesting (prims : Prims) (fuel : Nat)
    (k1 k2 : String) (es : List (String × RawValue)) (v : RawValue)
    (d1 d2 : Dirname) (fd1 fd2 : FieldKey)
    (h1 : parseFieldKey k1 = Except.ok fd1)
    (h2 : parseFieldKey k2 = Except.ok fd2)
    (hn : fd2.name = fd1.name)
    (hu1 : underscored k1 = false) (hu2 : underscored k2 = false)
    (hv : ∀ es', v ≠ RawValue.obj es')
    (hfuel : 0 < fuel) :
    Options.loadSync prims fuel
        (((Options.new).addPrimary [(k1, RawValue.obj es)] d1).addFallback
          [(k2, v)] d2) =
      Except.error ("Inconsistent nesting for field with name '" ++
        ("/" ++ fd1.name) ++ "'") ∧
    Options.load prims fuel
        (((Options.new).addPrimary [(k1, RawValue.obj es)] d1).addFallback
          [(k2, v)] d2) =
      Except.error ("Inconsistent nesting for field with name '" ++
        ("/" ++ fd1.name) ++ "'") ∧
    Options.loadSync prims fuel
        (((Options.new).addPrimary [(k2, v)] d2).addFallback
          [(k1, RawValue.obj es)] d1) =
      Except.error ("Inconsistent nesting for field with name '" ++
        ("/" ++ fd2.name) ++ "'") ∧
    Options.load prims fuel
        (((Options.new).addPrimary [(k2, v)] d2).addFallback
          [(k1, RawValue.obj es)] d1) =
      Except.error ("Inconsistent nesting for field with name '" ++
        ("/" ++ fd2.name) ++ "'") := by
  obtain ⟨n, rfl⟩ : ∃ n, fuel = n + 1 := ⟨fuel - 1, by omega⟩
  have hscal : isConsumable (Field.mk fd2.name fd2.properties fd2.array v)
      = false := by
    cases v with
    | obj es' => exact absurd rfl (hv es')
    | str s => rfl
    | num m => rfl
    | bool b => rfl
    | arr l => rfl
  have hobj : isConsumable
      (Field.mk fd1.name fd1.properties fd1.array (RawValue.obj es)) =
      true := rfl
  have hmix1 : isConsumable
      (Field.mk fd1.name fd1.properties fd1.array (RawValue.obj es)) ≠
      isConsumable (Field.mk fd2.name fd2.properties fd2.array v) := by
    rw [hobj, hscal]
    simp
  have hmix2 : isConsumable
      (Field.mk fd2.name fd2.properties fd2.array v) ≠
      isConsumable (Field.mk fd1.name fd1.properties fd1.array
        (RawValue.obj es)) := by
    rw [hobj, hscal]
    simp
  refine ⟨?_, ?_, ?_, ?_⟩
  · exact consumeSync_two_single_mixed prims n k1 k2 (RawValue.obj es) v
      d1 d2 fd1 fd2 h1 h2 hn hu1 hu2 hmix1
  · exact consume_two_single_mixed prims n k1 k2 (RawValue.obj es) v
      d1 d2 fd1 fd2 h1 h2 hn hu1 hu2 hmix1
  · exact consumeSync_two_single_mixed prims n k2 k1 v (RawValue.obj es)
      d2 d1 fd2 fd1 h2 h1 hn.symm hu2 hu1 hmix2
  · exact consume_two_single_mixed prims n k2 k1 v (RawValue.obj es)
      d2 d1 fd2 fd1 h2 h1 hn.symm hu2 hu1 hmix2

/-- Witness for C3: a source defining "foo" as a nested mapping layered with
a source defining "foo" as the scalar string "s" fails, both ways round and
in both execution modes, with the inconsistent-nesting error naming "/foo". -/
theorem c3_inconsistent_nesting_witness :
    Options.loadSync okPrims 1
        (((Options.new).addPrimary
            [("foo", RawValue.obj [("x", RawValue.str "1")])]
            (Dirname.dir "d")).addFallback
          [("foo", RawValue.str "s")] (Dirname.dir "e")) =
      Except.error "Inconsistent nesting for field with name '/foo'" ∧
    Options.load okPrims 1
        (((Options.new).addPrimary
            [("foo", RawValue.obj [("x", RawValue.str "1")])]
            (Dirname.dir "d")).addFallback
          [("foo", RawValue.str "s")] (Dirname.dir "e")) =
      Except.error "Inconsistent nesting for field with name '/foo'" ∧
    Options.loadSync okPrims 1
        (((Options.new).addPrimary [("foo", RawValue.str "s")]
            (Dirname.dir "e")).addFallback
          [("foo", RawValue.obj [("x", RawValue.str "1")])]
          (Dirname.dir "d")) =
      Except.error "Inconsistent nesting for field with name '/foo'" :=
  have h := c3_inconsistent_nesting okPrims 1 "foo" "foo"
    [("x", RawValue.str "1")] (RawValue.str "s")
    (Dirname.dir "d") (Dirname.dir "e")
    (FieldKey.mk "foo" [] false) (FieldKey.mk "foo" [] false)
    rfl rfl rfl rfl rfl (fun es' h => RawValue.noConfusion h)
    (by norm_num)
  ⟨h.1, h.2.1, h.2.2.1⟩

/-! ### C2: terminal-field priority -/

theorem mkOptions_overrides (ovs prs fbs : List Src) :
    (mkOptions ovs prs fbs).overrides = ovs := by
  rw [mkOptions]
  have h3 : ∀ (l : List Src) (o : Options),
      (l.foldl (fun o s => o.addFallback s.entries s.dirname) o).overrides =
        o.overrides := by
    intro l
    induction l with
    | nil => intro o; rfl
    | cons x xs ih => intro o; rw [List.foldl_cons]; exact ih _
  have h2 : ∀ (l : List Src) (o : Options),
      (l.foldl (fun o s => o.addPrimary s.entries s.dirname) o).overrides =
        o.overrides := by
    intro l
    induction l with
    | nil => intro o; rfl
    | cons x xs ih => intro o; rw [List.foldl_cons]; exact ih _
  have h1 : ∀ (l : List Src) (o : Options),
      (l.foldl (fun o s => o.addOverride s.entries s.dirname) o).overrides =
        o.overrides ++ l := by
    intro l
    induction l with
    | nil => intro o; simp
    | cons x xs ih =>
        intro o
        rw [List.foldl_cons, ih]
        simp [Options.addOverride]
  simp only [h3, h2, h1]
  rfl

theorem mkOptions_sources (ovs prs fbs : List Src) :
    (mkOptions ovs prs fbs).sources = prs.reverse ++ fbs := by
  rw [mkOptions]
  have h1 : ∀ (l : List Src) (o : Options),
      (l.foldl (fun o s => o.addOverride s.entries s.dirname) o).sources =
        o.sources := by
    intro l
    induction l with
    | nil => intro o; rfl
    | cons x xs ih => intro o; rw [List.foldl_cons]; exact ih _
  have h2 : ∀ (l : List Src) (o : Options),
      (l.foldl (fun o s => o.addPrimary s.entries s.dirname) o).sources =
        l.reverse ++ o.sources := by
    intro l
    induction l with
    | nil => intro o; simp
    | cons x xs ih =>
        intro o
        rw [List.foldl_cons, ih]
        simp [Options.addPrimary]
  have h3 : ∀ (l : List Src) (o : Options),
      (l.foldl (fun o s => o.addFallback s.entries s.dirname) o).sources =
        o.sources ++ l := by
    intro l
    induction l with
    | nil => intro o; simp
    | cons x xs ih =>
        intro o
        rw [List.foldl_cons, ih]
        simp [Options.addFallback]
  simp only [h3, h2, h1]
  simp [Options.new]

theorem exceptBind_pure_eq_ok {ε α β : Type} (x : Except ε α) (g : α → β)
    (out : β) (h : (x >>= fun a => pure (g a)) = Except.ok out) :
    ∃ a, x = Except.ok a ∧ out = g a := by
  cases x with
  | error e => rw [exceptBind_error] at h; cases h
  | ok a =>
      rw [exceptBind_ok, exceptPure_eq_ok, Except.ok.injEq] at h
      exact ⟨a, rfl, h.symm⟩

theorem consumeStepSync_shape (prims : Prims)
    (recurse : List (String × Tree) → String → List Src →
      Except String (List (String × Tree)))
    (cs : List CSrc) (prev : String) (dest : List (String × Tree))
    (name : String) (out : List (String × Tree))
    (h : consumeStepSync prims recurse cs prev dest name = Except.ok out) :
    ∃ v, out = setKey dest name v := by
  rw [consumeStepSync] at h
  split at h
  · cases h
  · split at h
    · split at h
      · obtain ⟨sub, _, hout⟩ := exceptBind_pure_eq_ok _ _ _ h
        exact ⟨Tree.node sub, hout⟩
      · obtain ⟨leaf, _, hout⟩ := exceptBind_pure_eq_ok _ _ _ h
        exact ⟨Tree.leaf leaf, hout⟩
    · cases h

theorem firstDefining_eq_head (cs : List CSrc) (f : String) :
    (cs.filterMap (fun s =>
      (getKey s.fields f).map (fun fld => (fld, s.dirname)))).head? =
    firstDefining cs f := by
  induction cs with
  | nil => rfl
  | cons s rest ih =>
      rw [List.filterMap_cons]
      cases h : getKey s.fields f with
      | none => simp only [Option.map_none', firstDefining, h]; exact ih
      | some fld => simp only [Option.map_some', firstDefining, h, List.head?_cons]

theorem firstDefining_mem {cs : List CSrc} {f : String} {fld : Field}
    {dn : Dirname} (h : firstDefining cs f = some (fld, dn)) :
    ∃ s ∈ cs, getKey s.fields f = some fld := by
  induction cs with
  | nil => cases h
  | cons s rest ih =>
      rw [firstDefining] at h
      cases hk : getKey s.fields f with
      | none => rw [hk] at h; obtain ⟨t, ht, htk⟩ := ih h; exact ⟨t, List.mem_cons_of_mem _ ht, htk⟩
      | some fld1 =>
          rw [hk, Option.some.injEq] at h
          exact ⟨s, List.mem_cons_self _ _, by rw [hk, (Prod.mk.injEq _ _ _ _).mp h |>.1]⟩

theorem consumeFold_preserves_sync (prims : Prims)
    (recurse : List (String × Tree) → String → List Src →
      Except String (List (String × Tree)))
    (cs : List CSrc) (prev : String) :
    ∀ (names : List String) (dest out : List (String × Tree)) (f : String),
      f ∉ names →
      names.foldlM (consumeStepSync prims recurse cs prev) dest =
        Except.ok out →
      getKey out f = getKey dest f := by
  intro names
  induction names with
  | nil =>
      intro dest out f _ h
      rw [List.foldlM_nil, exceptPure_eq_ok, Except.ok.injEq] at h
      rw [← h]
  | cons n ns ih =>
      intro dest out f hf h
      rw [List.foldlM_cons] at h
      cases hs : consumeStepSync prims recurse cs prev dest n with
      | error e => rw [hs, exceptBind_error] at h; cases h
      | ok d1 =>
          rw [hs, exceptBind_ok] at h
          obtain ⟨v, hd1⟩ := consumeStepSync_shape _ _ _ _ _ _ _ hs
          rw [ih d1 out f (fun hm => hf (List.mem_cons_of_mem _ hm)) h, hd1,
            getKey_setKey_ne _ _ _ _
              (fun (he : f = n) => hf (he ▸ List.mem_cons_self n ns))]

theorem consumeStepSync_terminal (prims : Prims)
    (recurse : List (String × Tree) → String → List Src →
      Except String (List (String × Tree)))
    (cs : List CSrc) (prev : String) (dest : List (String × Tree))
    (f : String) (fld : Field) (dn : Dirname) (out : List (String × Tree))
    (hfd : firstDefining cs f = some (fld, dn))
    (hterm : isConsumable fld = false)
    (h : consumeStepSync prims recurse cs prev dest f = Except.ok out) :
    ∃ leaf, processFieldSync prims fld (getKey dest f) dn = Except.ok leaf ∧
      out = setKey dest f (Tree.leaf leaf) := by
  rw [← firstDefining_eq_head] at hfd
  rw [consumeStepSync] at h
  split at h
  · rename_i hds
    rw [hds] at hfd; cases hfd
  · rename_i fld0 dn0 rest hds
    rw [hds, List.head?_cons, Option.some.injEq] at hfd
    obtain ⟨h1, h2⟩ := (Prod.mk.injEq _ _ _ _).mp hfd
    subst h1; subst h2
    split at h
    · rw [if_neg (by rw [hterm]; exact Bool.false_ne_true)] at h
      obtain ⟨leaf, hpf, hout⟩ := exceptBind_pure_eq_ok _ _ _ h
      exact ⟨leaf, hpf, hout⟩
    · cases h

theorem exceptBind_eq_ok {ε α β : Type} (x : Except ε α) (g : α → Except ε β)
    (out : β) (h : (x >>= g) = Except.ok out) :
    ∃ a, x = Except.ok a ∧ g a = Except.ok out := by
  cases x with
  | error e => rw [exceptBind_error] at h; cases h
  | ok a => rw [exceptBind_ok] at h; exact ⟨a, rfl, h⟩

theorem consumeSync_terminal_first (prims : Prims) (fuel : Nat)
    (rawSrcs : List Src) (cs : List CSrc) (f : String) (fld : Field)
    (dn : Dirname) (out : List (String × Tree))
    (hconv : rawSrcs.mapM convertKeysToFields = Except.ok cs)
    (hund : underscored f = false)
    (hfd : firstDefining cs f = some (fld, dn))
    (hterm : isConsumable fld = false)
    (h : consumeSync prims (fuel + 1) [] "" rawSrcs = Except.ok out) :
    ∃ leaf, processFieldSync prims fld none dn = Except.ok leaf ∧
      getKey out f = some (Tree.leaf leaf) := by
  simp only [consumeSync, hconv, exceptBind_ok] at h
  have hmem : f ∈ getAllFieldNames cs := by
    obtain ⟨s, hs, hk⟩ := firstDefining_mem hfd
    rw [getAllFieldNames, mem_dedupFirst, List.mem_filter]
    refine ⟨?_, by simp [hund]⟩
    rw [List.mem_flatten]
    exact ⟨s.fields.map Prod.fst, List.mem_map_of_mem _ hs,
      List.mem_map_of_mem Prod.fst (getKey_mem hk)⟩
  have hnd : (getAllFieldNames cs).Nodup := nodup_dedupFirst _
  obtain ⟨l1, l2, hsplit⟩ := List.append_of_mem hmem
  rw [hsplit] at h hnd
  rw [List.nodup_append] at hnd
  have hf1 : f ∉ l1 := fun hm => hnd.2.2 hm (List.mem_cons_self _ _)
  have hf2 : f ∉ l2 := (List.nodup_cons.mp hnd.2.1).1
  rw [List.foldlM_append] at h
  obtain ⟨mid, h1, h⟩ := exceptBind_eq_ok _ _ _ h
  rw [List.foldlM_cons] at h
  obtain ⟨mid2, h2, h⟩ := exceptBind_eq_ok _ _ _ h
  have hmidf : getKey mid f = none := by
    rw [consumeFold_preserves_sync prims _ cs "" l1 [] mid f hf1 h1]; rfl
  obtain ⟨leaf, hpf, hmid2⟩ :=
    consumeStepSync_terminal prims _ cs "" mid f fld dn mid2 hfd hterm h2
  refine ⟨leaf, by rwa [hmidf] at hpf, ?_⟩
  rw [consumeFold_preserves_sync prims _ cs "" l2 mid2 out f hf2 h, hmid2,
    getKey_setKey_self]

/-- C2: a terminal (non-nested) field resolves from its highest-priority
defining source, priority being source order in the layering that
`Options.loadSync` resolves: all overrides in the order added, then primary
sources most-recently-added first, then fallback sources first-added first
(`mkOptions ovs prs fbs` builds the layering by those add calls, and its
resolution order is `ovs ++ prs.reverse ++ fbs`).  Whenever the layering
resolves successfully, the resolved value at such a field is exactly
`processFieldSync` of the first defining source's field and context — in
particular a field defined in both an override and a fallback source takes
the override's value. -/
theorem c2_terminal_priority (prims : Prims) (fuel : Nat)
    (ovs prs fbs : List Src) (cs : List CSrc) (f : String) (fld : Field)
    (dn : Dirname) (out : List (String × Tree))
    (hconv : (ovs ++ prs.reverse ++ fbs).mapM convertKeysToFields =
      Except.ok cs)
    (hund : underscored f = false)
    (hfd : firstDefining cs f = some (fld, dn))
    (hterm : isConsumable fld = false)
    (h : Options.loadSync prims (fuel + 1) (mkOptions ovs prs fbs) =
      Except.ok out) :
    ∃ leaf, processFieldSync prims fld none dn = Except.ok leaf ∧
      getKey out f = some (Tree.leaf leaf) := by
  rw [Options.loadSync, mkOptions_overrides, mkOptions_sources,
    ← List.append_assoc] at h
  exact consumeSync_terminal_first prims fuel _ cs f fld dn out hconv hund
    hfd hterm h

theorem c2_terminal_priority_witness :
    underscored "foo" = false ∧
    firstDefining
      [CSrc.mk [("foo", Field.mk "foo" [] false (RawValue.str "override"))]
        (Dirname.dir "od"),
       CSrc.mk [("foo", Field.mk "foo" [] false (RawValue.str "fallback"))]
        (Dirname.dir "fd")] "foo" =
      some (Field.mk "foo" [] false (RawValue.str "override"),
        Dirname.dir "od") ∧
    ∃ leaf, processFieldSync okPrims
        (Field.mk "foo" [] false (RawValue.str "override")) none
        (Dirname.dir "od") = Except.ok leaf ∧
      getKey [("foo", Tree.leaf (Leaf.raw (RawValue.str "override")))] "foo" =
        some (Tree.leaf leaf) :=
  ⟨rfl, rfl,
    c2_terminal_priority okPrims 0
      [Src.mk [("foo", RawValue.str "override")] (Dirname.dir "od")] []
      [Src.mk [("foo", RawValue.str "fallback")] (Dirname.dir "fd")]
      [CSrc.mk [("foo", Field.mk "foo" [] false (RawValue.str "override"))]
        (Dirname.dir "od"),
       CSrc.mk [("foo", Field.mk "foo" [] false (RawValue.str "fallback"))]
        (Dirname.dir "fd")]
      "foo" (Field.mk "foo" [] false (RawValue.str "override"))
      (Dirname.dir "od")
      [("foo", Tree.leaf (Leaf.raw (RawValue.str "override")))]
      (by rfl) rfl rfl rfl (by rfl)⟩

theorem exceptMap_error {ε α β : Type} (f : α → β) (e : ε) :
    Except.map f (Except.error e : Except ε α) = Except.error e := rfl

theorem exceptMap_ok {ε α β : Type} (f : α → β) (a : α) :
    Except.map f (Except.ok a : Except ε α) = Except.ok (f a) := rfl

theorem processField_eq_good (prims : Prims) (fld : Field) (old : Option Tree)
    (dn : Dirname) (hp : goodProps fld.properties = true) :
    processField prims fld old dn = processFieldSync prims fld old dn := by
  rw [processField, processFieldSync]
  by_cases h0 : fld.properties.length = 0
  · rw [if_pos h0, if_pos h0]
  · rw [if_neg h0, if_neg h0]
    by_cases hu : fld.properties.contains "uint" = true
    · rw [if_pos hu, if_pos hu]
    · rw [if_neg hu, if_neg hu]
      by_cases hn : fld.properties.contains "number" = true
      · rw [if_pos hn, if_pos hn]
      · rw [if_neg hn, if_neg hn]
        have hs : (fld.properties.contains "path" ||
            fld.properties.contains "img" ||
            fld.properties.contains "font") = true := by
          rw [goodProps] at hp
          have h0' : fld.properties.isEmpty = false := by
            cases hl : fld.properties with
            | nil => exact absurd (by rw [hl]; rfl) h0
            | cons a l => rfl
          simp only [h0', hu, hn, eq_self_iff_true] at hp
          simpa [Bool.or_assoc] using hp
        simp only [if_pos hs]
        cases dn with
        | fn reader =>
            cases hv : asString fld.value with
            | error e => simp [hv, exceptBind_error]
            | ok p =>
                cases hr : reader p with
                | error e => simp [hv, hr, exceptBind_ok, jsShow]
                | ok ob =>
                    cases ob with
                    | none => simp [hv, hr, exceptBind_ok, jsShow]
                    | some b => simp [hv, hr, exceptBind_ok, jsShow]
        | dir d =>
            cases hv : asString fld.value with
            | error e => simp [hv, exceptBind_error, exceptMap_error]
            | ok v =>
                cases hf : prims.fsys (prims.pathJoin d v) with
                | error e =>
                    simp [hv, hf, exceptBind_ok, exceptMap_ok,
                      exceptMap_error, jsShow]
                | ok b =>
                    simp [hv, hf, exceptBind_ok, exceptMap_ok, jsShow]

theorem goodEntries_cons (k : String) (v : RawValue)
    (rest : List (String × RawValue)) :
    goodEntries ((k, v) :: rest) = (goodHead k v && goodEntries rest) := by
  cases v <;> rw [goodEntries] <;> try rfl
  all_goals intro es h; cases h

theorem convert_good {src : Src} {c : CSrc}
    (hconv : convertKeysToFields src = Except.ok c)
    (hg : goodEntries src.entries = true) : goodCSrc c = true := by
  have main : ∀ (es : List (String × RawValue)) (acc : List (String × Field)),
      goodEntries es = true →
      acc.all (fun p => goodField p.2) = true →
      ∀ fields, es.foldlM (fun dest kv => do
          if underscored kv.1 then
            pure dest
          else do
            let field ← parseFieldKey kv.1
            match getKey dest field.name with
            | some _ =>
                Except.error
                  ("Duplicate entry in same source for field '" ++
                    field.name ++ "'")
            | none =>
                pure (dest ++ [(field.name,
                  { name := field.name, properties := field.properties,
                    array := field.array, value := kv.2 })])) acc =
          Except.ok fields →
        fields.all (fun p => goodField p.2) = true := by
    intro es
    induction es with
    | nil =>
        intro acc _ hacc fields hf
        rw [List.foldlM_nil, exceptPure_eq_ok, Except.ok.injEq] at hf
        rw [← hf]; exact hacc
    | cons kv rest ih =>
        intro acc hge hacc fields hf
        obtain ⟨k, v⟩ := kv
        rw [goodEntries_cons, Bool.and_eq_true] at hge
        rw [List.foldlM_cons] at hf
        by_cases hk : underscored k = true
        · rw [if_pos hk, exceptPure_eq_ok, exceptBind_ok] at hf
          exact ih acc hge.2 hacc fields hf
        · rw [if_neg hk] at hf
          cases hpk : parseFieldKey k with
          | error e => rw [hpk, exceptBind_error, exceptBind_error] at hf; cases hf
          | ok field =>
              rw [hpk, exceptBind_ok] at hf
              cases hgk : getKey acc field.name with
              | some f0 => rw [hgk] at hf; rw [exceptBind_error] at hf; cases hf
              | none =>
                  rw [hgk] at hf
                  rw [exceptPure_eq_ok, exceptBind_ok] at hf
                  refine ih _ hge.2 ?_ fields hf
                  rw [List.all_append, Bool.and_eq_true]
                  refine ⟨hacc, ?_⟩
                  rw [List.all_cons, List.all_nil, Bool.and_eq_true]
                  refine ⟨?_, rfl⟩
                  cases v with
                  | obj es2 =>
                      have hhead : (if underscored k = true then true
                          else goodEntries es2) = true := hge.1
                      rw [if_neg hk] at hhead
                      exact hhead
                  | str s =>
                      have hhead : (if underscored k = true then true
                          else match parseFieldKey k with
                            | Except.ok fd => goodProps fd.properties
                            | Except.error _ => true) = true := hge.1
                      rw [if_neg hk, hpk] at hhead
                      exact hhead
                  | num n =>
                      have hhead : (if underscored k = true then true
                          else match parseFieldKey k with
                            | Except.ok fd => goodProps fd.properties
                            | Except.error _ => true) = true := hge.1
                      rw [if_neg hk, hpk] at hhead
                      exact hhead
                  | bool b =>
                      have hhead : (if underscored k = true then true
                          else match parseFieldKey k with
                            | Except.ok fd => goodProps fd.properties
                            | Except.error _ => true) = true := hge.1
                      rw [if_neg hk, hpk] at hhead
                      exact hhead
                  | arr l =>
                      have hhead : (if underscored k = true then true
                          else match parseFieldKey k with
                            | Except.ok fd => goodProps fd.properties
                            | Except.error _ => true) = true := hge.1
                      rw [if_neg hk, hpk] at hhead
                      exact hhead
  rw [convertKeysToFields] at hconv
  obtain ⟨fields, hfold, hc⟩ := exceptBind_eq_ok _ _ _ hconv
  rw [exceptPure_eq_ok, Except.ok.injEq] at hc
  rw [goodCSrc, ← hc]
  exact main src.entries [] hg rfl fields hfold

theorem mapM_convert_good : ∀ (rawSrcs : List Src) (cs : List CSrc),
    rawSrcs.mapM convertKeysToFields = Except.ok cs →
    goodSrcs rawSrcs = true → cs.all goodCSrc = true := by
  intro rawSrcs
  induction rawSrcs with
  | nil =>
      intro cs h _
      rw [List.mapM_nil, exceptPure_eq_ok, Except.ok.injEq] at h
      rw [← h]; rfl
  | cons s rest ih =>
      intro cs h hg
      rw [goodSrcs, List.all_cons, Bool.and_eq_true] at hg
      rw [List.mapM_cons] at h
      obtain ⟨c, hc, h⟩ := exceptBind_eq_ok _ _ _ h
      obtain ⟨cst, hcst, h⟩ := exceptBind_eq_ok _ _ _ h
      rw [exceptPure_eq_ok, Except.ok.injEq] at h
      rw [← h, List.all_cons, Bool.and_eq_true]
      exact ⟨convert_good hc hg.1, ih cst hcst hg.2⟩

theorem defining_good {cs : List CSrc} {f : String} {fld : Field}
    {dn : Dirname}
    (hcs : cs.all goodCSrc = true)
    (hmem : (fld, dn) ∈ cs.filterMap (fun s =>
      (getKey s.fields f).map (fun g => (g, s.dirname)))) :
    goodField fld = true := by
  rw [List.mem_filterMap] at hmem
  obtain ⟨s, hs, hmap⟩ := hmem
  cases hk : getKey s.fields f with
  | none => rw [hk] at hmap; cases hmap
  | some g =>
      rw [hk, Option.map_some', Option.some.injEq] at hmap
      have hgood : goodCSrc s = true := by
        rw [List.all_eq_true] at hcs
        exact hcs s hs
      rw [goodCSrc, List.all_eq_true] at hgood
      have := hgood (f, g) (getKey_mem hk)
      rw [← (Prod.mk.injEq _ _ _ _).mp hmap |>.1]
      exact this

theorem nested_good {cs : List CSrc} {f : String}
    (hcs : cs.all goodCSrc = true)
    (ds : List (Field × Dirname))
    (hds : cs.filterMap (fun s =>
      (getKey s.fields f).map (fun g => (g, s.dirname))) = ds) :
    goodSrcs (ds.filterMap (fun p =>
      match p.1.value with
      | RawValue.obj es => some (Src.mk es p.2)
      | _ => none)) = true := by
  rw [goodSrcs, List.all_eq_true]
  intro src hsrc
  rw [List.mem_filterMap] at hsrc
  obtain ⟨p, hp, hmatch⟩ := hsrc
  have hgf : goodField p.1 = true :=
    defining_good hcs (by rw [hds]; exact hp)
  cases hv : p.1.value with
  | obj es =>
      rw [hv, Option.some.injEq] at hmatch
      rw [goodField, hv] at hgf
      rw [← hmatch]
      exact hgf
  | str s2 => rw [hv] at hmatch; cases hmatch
  | num n => rw [hv] at hmatch; cases hmatch
  | bool b => rw [hv] at hmatch; cases hmatch
  | arr l => rw [hv] at hmatch; cases hmatch

theorem consumeStep_eq (prims : Prims)
    (recA recS : List (String × Tree) → String → List Src →
      Except String (List (String × Tree)))
    (cs : List CSrc) (prev : String) (dest : List (String × Tree))
    (name : String)
    (hcs : cs.all goodCSrc = true)
    (hrec : ∀ d p s, goodSrcs s = true → recA d p s = recS d p s) :
    consumeStepAsync prims recA cs prev dest name =
      consumeStepSync prims recS cs prev dest name := by
  rw [consumeStepAsync, consumeStepSync]
  cases hds : cs.filterMap (fun s =>
      (getKey s.fields name).map (fun g => (g, s.dirname))) with
  | nil => rfl
  | cons p rest =>
      obtain ⟨fld0, dn0⟩ := p
      dsimp only
      by_cases hall : ((fld0, dn0) :: rest).all
          (fun p => isConsumable p.1 = isConsumable fld0) = true
      · rw [if_pos hall, if_pos hall]
        by_cases hio : isConsumable fld0 = true
        · rw [if_pos hio, if_pos hio]
          rw [hrec _ _ _ (nested_good hcs _ hds)]
        · rw [if_neg hio, if_neg hio]
          have hgf : goodField fld0 = true :=
            defining_good hcs (by rw [hds]; exact List.mem_cons_self _ _)
          have hgp : goodProps fld0.properties = true := by
            cases hv : fld0.value with
            | obj es => rw [isConsumable, hv] at hio; exact absurd rfl hio
            | str s => rw [goodField, hv] at hgf; exact hgf
            | num n => rw [goodField, hv] at hgf; exact hgf
            | bool b => rw [goodField, hv] at hgf; exact hgf
            | arr l => rw [goodField, hv] at hgf; exact hgf
          rw [processField_eq_good prims fld0 (getKey dest name) dn0 hgp]
      · rw [if_neg hall, if_neg hall]

theorem foldlM_step_congr {σ : Type}
    (fA fS : σ → String → Except String σ)
    (h : ∀ d n, fA d n = fS d n) :
    ∀ (names : List String) (d0 : σ),
      names.foldlM fA d0 = names.foldlM fS d0 := by
  intro names
  induction names with
  | nil => intro d0; rfl
  | cons n ns ih =>
      intro d0
      rw [List.foldlM_cons, List.foldlM_cons, h]
      cases fS d0 n with
      | error e => rfl
      | ok d1 => rw [exceptBind_ok, exceptBind_ok]; exact ih d1

theorem consume_eq_consumeSync (prims : Prims) :
    ∀ (fuel : Nat) (dest : List (String × Tree)) (prev : String)
      (rawSrcs : List Src), goodSrcs rawSrcs = true →
      consume prims fuel dest prev rawSrcs =
        consumeSync prims fuel dest prev rawSrcs := by
  intro fuel
  induction fuel with
  | zero => intro dest prev rawSrcs _; rfl
  | succ fuel ih =>
      intro dest prev rawSrcs hg
      rw [consume, consumeSync]
      cases hconv : rawSrcs.mapM convertKeysToFields with
      | error e => rw [exceptBind_error, exceptBind_error]
      | ok cs =>
          rw [exceptBind_ok, exceptBind_ok]
          exact foldlM_step_congr _ _
            (fun d n => consumeStep_eq prims _ _ cs prev d n
              (mapM_convert_good rawSrcs cs hconv hg) ih)
            (getAllFieldNames cs) dest

/-- C1 (amended): for every source layering all of whose (recursively
nested) terminal fields declare a recognised property set — none, or one of
`uint`/`number`/`path`/`img`/`font` — the concurrent entry point
`Options.load` and the blocking entry point `Options.loadSync` agree
exactly, so in particular they produce structurally equal merged trees
whenever they succeed.  The spec's "no asset-load errors" proviso is
dropped: read failures propagate identically in the two modes and are not
the point of divergence; instead, a terminal field declaring only
unrecognised properties loads no asset at all, yet makes `load` fail where
`loadSync` returns the empty asset object. -/
theorem c1_load_eq_loadSync (prims : Prims) (fuel : Nat) (o : Options)
    (hgood : goodSrcs (o.overrides ++ o.sources) = true) :
    Options.load prims fuel o = Options.loadSync prims fuel o := by
  rw [Options.load, Options.loadSync]
  exact consume_eq_consumeSync prims fuel [] "" _ hgood

theorem c1_load_eq_loadSync_witness :
    goodSrcs ((Options.addPrimary Options.new [("foo", RawValue.str "x")]
        (Dirname.dir "d")).overrides ++
      (Options.addPrimary Options.new [("foo", RawValue.str "x")]
        (Dirname.dir "d")).sources) = true ∧
    Options.load okPrims 1
        (Options.addPrimary Options.new [("foo", RawValue.str "x")]
          (Dirname.dir "d")) =
      Options.loadSync okPrims 1
        (Options.addPrimary Options.new [("foo", RawValue.str "x")]
          (Dirname.dir "d")) :=
  ⟨by
    show goodSrcs [Src.mk [("foo", RawValue.str "x")] (Dirname.dir "d")] = true
    rw [goodSrcs, List.all_cons, List.all_nil, goodEntries_cons, goodEntries]
    rfl,
   c1_load_eq_loadSync okPrims 1
    (Options.addPrimary Options.new [("foo", RawValue.str "x")]
      (Dirname.dir "d"))
    (by
      show goodSrcs [Src.mk [("foo", RawValue.str "x")] (Dirname.dir "d")] =
        true
      rw [goodSrcs, List.all_cons, List.all_nil, goodEntries_cons,
        goodEntries]
      rfl)⟩

/-- C1 counterexample: a primary source whose single field `"foo (bar)"`
declares only the unrecognised property `bar`.  The blocking walk resolves
it to the empty asset object, while the concurrent walk fails: its buffer
task finds the buffer slot still `null` after the skipped read and
overwrites the (absent) error with a load failure.  The two entry points
therefore disagree on a layering with no asset-load error anywhere. -/
theorem c1_counterexample :
    Options.loadSync okPrims 1
        (Options.addPrimary Options.new [("foo (bar)", RawValue.str "x")]
          (Dirname.dir "d")) =
      Except.ok [("foo", Tree.leaf (Leaf.asset assetEmpty))] ∧
    Options.load okPrims 1
        (Options.addPrimary Options.new [("foo (bar)", RawValue.str "x")]
          (Dirname.dir "d")) =
      Except.error
        "Could not load file: undefined: file loader function returned null" :=
  ⟨rfl, rfl⟩
